import Mathlib

/-!
Verification development for the macaroon library (go-macaroon/macaroon).

Byte strings are embedded as `List Nat` (each entry a byte value). The
external cryptographic primitives (SHA-256, HMAC-SHA-256, NaCl secretbox)
are not part of this repository; they are modelled here as fixed executable
functions with the correct output lengths and the round-trip behaviour the
library relies on. Everything else is translated from the repository's
source files.
-/

set_option maxRecDepth 200000

deriving instance DecidableEq for Except

/-- Byte strings: lists of byte values. -/
abbrev Bytes := List Nat

/-- Mixing step for the model digests (an arbitrary fixed function). -/
def mixStep (a b : Nat) : Nat :=
  (a * 131 + b + 257) % 4294967296

/-- Model digest: an arbitrary fixed function from a seed and a message to a
32-byte string, standing in for the external hash primitives. -/
def digest32 (seed : Nat) (msg : Bytes) : Bytes :=
  let h := msg.foldl mixStep (seed + 101 * msg.length + 1)
  (List.range 32).map (fun i => (h / 2 ^ (i % 24) + 53 * i) % 256)

/-- Model of the external SHA-256 primitive (crypto/sha256): a fixed function
from byte strings to 32-byte digests; the repository treats it as a black box. -/
def sha256 (msg : Bytes) : Bytes :=
  digest32 1 msg

/-- Model of crypto.go's keyedHash / keyedHasher: HMAC-SHA-256 as a black-box
keyed hash producing a 32-byte digest. Successive `Write` calls of the source
concatenate, so the model takes the concatenated text. -/
def keyedHash (key text : Bytes) : Bytes :=
  digest32 (2 + 3 * key.length) (key ++ text)

/-- Poly1305 overhead of NaCl secretbox (16-byte authentication tag). -/
def secretboxOverhead : Nat := 16

/-- Model of the secretbox authentication tag: a fixed 16-byte function of the
key, nonce and message. -/
def sealTag (key nonce text : Bytes) : Bytes :=
  (digest32 (5 + 3 * key.length + 7 * nonce.length) (key ++ nonce ++ text)).take 16

/-- Model of secretbox.Seal: authenticated encryption is modelled functionally
as the message followed by its 16-byte tag (the output length, determinism and
round-trip behaviour match the real primitive; confidentiality is not modelled). -/
def secretboxSeal (key nonce text : Bytes) : Bytes :=
  text ++ sealTag key nonce text

/-- Model of secretbox.Open: succeeds exactly on outputs of `secretboxSeal`
with the same key and nonce, recovering the message. -/
def secretboxOpen (key nonce box : Bytes) : Option Bytes :=
  if box.length < secretboxOverhead then none
  else
    let text := box.take (box.length - secretboxOverhead)
    if box.drop (box.length - secretboxOverhead) = sealTag key nonce text then some text
    else none

/-- keyLen from crypto.go. -/
def keyLen : Nat := 32

/-- nonceLen from crypto.go. -/
def nonceLen : Nat := 24

/-- makeKey from crypto.go: zero-pad a key shorter than 32 bytes to 32 bytes,
otherwise SHA-256 it. -/
def makeKey (key : Bytes) : Bytes :=
  if key.length < keyLen then key ++ List.replicate (keyLen - key.length) 0
  else sha256 key

/-- Model of io.Reader restricted to the single Read call the library makes:
given the requested byte count, the reader yields the bytes it fills (possibly
fewer than requested) and an optional error. -/
abbrev Reader := Nat → Bytes × Option String

/-- newNonce from crypto.go: read into a zeroed 24-byte buffer with a single
Read call; fail only when the reader reports an error (a short read without an
error is accepted, leaving the tail of the nonce zero). -/
def newNonce (r : Reader) : Except String Bytes :=
  match r nonceLen with
  | (_, some e) => .error ("cannot generate random bytes: " ++ e)
  | (bs, none) =>
    let b := bs.take nonceLen
    .ok (b ++ List.replicate (nonceLen - b.length) 0)

/-- encrypt from crypto.go: a fresh 24-byte nonce followed by the secretbox
ciphertext of `text` under `makeKey key`. -/
def encrypt (key text : Bytes) (r : Reader) : Except String Bytes :=
  match newNonce r with
  | .error e => .error e
  | .ok nonce => .ok (nonce ++ secretboxSeal (makeKey key) nonce text)

/-- decrypt from crypto.go: split off the 24-byte nonce and open the secretbox
under `makeKey key`. -/
def decrypt (key ciphertext : Bytes) : Except String Bytes :=
  if ciphertext.length < nonceLen + secretboxOverhead then .error "message too short"
  else
    match secretboxOpen (makeKey key) (ciphertext.take nonceLen) (ciphertext.drop nonceLen) with
    | some text => .ok text
    | none => .error "decryption failure"

/-- Caveat from macaroon.go: a first person or third party caveat. -/
structure Caveat where
  location : Bytes
  caveatId : Bytes
  verificationId : Bytes
deriving DecidableEq

/-- Macaroon from macaroon.go: location, id, ordered caveats, signature. -/
structure Macaroon where
  location : Bytes
  id : Bytes
  caveats : List Caveat
  sig : Bytes
deriving DecidableEq

/-- IsThirdParty from macaroon.go: a caveat is third-party iff its
verification id is non-empty. -/
def Caveat.IsThirdParty (cav : Caveat) : Bool :=
  decide (0 < cav.verificationId.length)

/-- New from macaroon.go: initial signature keyedHash(rootKey, id); the raw
root key is passed to keyedHash. -/
def New (rootKey id loc : Bytes) : Macaroon :=
  { location := loc, id := id, caveats := [], sig := keyedHash rootKey id }

/-- addCaveat from macaroon.go: append the caveat and chain the signature over
the verification id followed by the caveat id. -/
def addCaveat (m : Macaroon) (caveatId verificationId loc : Bytes) : Macaroon :=
  { m with
    caveats := m.caveats ++ [{ location := loc, caveatId := caveatId, verificationId := verificationId }],
    sig := keyedHash m.sig (verificationId ++ caveatId) }

/-- bindForRequest from macaroon.go: identity when the two signatures are
equal, otherwise the un-keyed SHA-256 of their concatenation. -/
def bindForRequest (rootSig dischargeSig : Bytes) : Bytes :=
  if rootSig = dischargeSig then rootSig
  else sha256 (rootSig ++ dischargeSig)

/-- Bind from macaroon.go (the method (*Macaroon).Bind). -/
def Macaroon.Bind (m : Macaroon) (rootSig : Bytes) : Macaroon :=
  { m with sig := bindForRequest rootSig m.sig }

/-- AddFirstPartyCaveat from macaroon.go. -/
def AddFirstPartyCaveat (m : Macaroon) (caveatId : Bytes) : Macaroon :=
  addCaveat m caveatId [] []

/-- addThirdPartyCaveatWithRand: the repository's randomness-injected variant
of macaroon.go's AddThirdPartyCaveat (referenced by export_test.go); it
encrypts the raw third-party root key under the current signature using
crypto.go's encrypt and appends the caveat. -/
def addThirdPartyCaveatWithRand (m : Macaroon) (rootKey caveatId loc : Bytes) (r : Reader) :
    Except String Macaroon :=
  match encrypt m.sig rootKey r with
  | .error e => .error e
  | .ok verificationId => .ok (addCaveat m caveatId verificationId loc)

/-- Errors produced by verify, one constructor per fmt.Errorf site plus the
checker's own error surfaced unchanged. -/
inductive MErr where
  | decryptCaveat (i : Nat) (msg : String)
  | dischargeNotFound (cavId : Bytes)
  | sigMismatch
  | checkFail (msg : String)
deriving DecidableEq

/-- Outcome of a fuelled run of verify: a result, an error, or fuel exhausted
(the run went deeper than the supplied fuel). -/
inductive VOut where
  | ok
  | err (e : MErr)
  | out
deriving DecidableEq

/-- First-party caveat checker: returns an error message when the condition is
not met. -/
abbrev Checker := Bytes → Option String

/-- The discharge-scanning loop of verify (macaroon.go lines 216-227): scan
the discharges for those whose id matches the caveat id, keeping the most
recent verification error and stopping at the first success. `none` means no
discharge matched. A fuel-exhausted nested run aborts the scan. -/
def dischargeLoop (f : Macaroon → VOut) (cavId : Bytes) :
    Option VOut → List Macaroon → Option VOut
  | acc, [] => acc
  | acc, dm :: rest =>
    if dm.id = cavId then
      match f dm with
      | .ok => some .ok
      | .out => some .out
      | .err e => dischargeLoop f cavId (some (.err e)) rest
    else dischargeLoop f cavId acc rest

/-- The caveat loop of verify (macaroon.go lines 206-250): walk the caveats,
recursing through `recurse` for third-party caveats, then compare the bound
chained signature against the stored one. -/
def verifyCaveats (recurse : Macaroon → Bytes → VOut) (m : Macaroon) (rootSig : Bytes)
    (check : Checker) (discharges : List Macaroon) :
    Bytes → Nat → List Caveat → VOut
  | caveatSig, _, [] =>
    if bindForRequest rootSig caveatSig = m.sig then .ok else .err .sigMismatch
  | caveatSig, i, cav :: rest =>
    let step : VOut :=
      if cav.IsThirdParty then
        match decrypt caveatSig cav.verificationId with
        | .error e => .err (.decryptCaveat i e)
        | .ok cavKey =>
          match dischargeLoop (fun dm => recurse dm cavKey) cav.caveatId none discharges with
          | none => .err (.dischargeNotFound cav.caveatId)
          | some .ok => .ok
          | some r => r
      else
        match check cav.caveatId with
        | some e => .err (.checkFail e)
        | none => .ok
    match step with
    | .ok =>
      verifyCaveats recurse m rootSig check discharges
        (keyedHash caveatSig (cav.verificationId ++ cav.caveatId)) (i + 1) rest
    | bad => bad

/-- verify from macaroon.go (lines 201-251), with an explicit recursion fuel:
normalize the root signature, then walk the caveats, recursing into matching
discharges with the decrypted caveat key and the root signature threaded
through unchanged. -/
def verify : Nat → Macaroon → Bytes → Bytes → Checker → List Macaroon → VOut
  | 0, _, _, _, _, _ => .out
  | Nat.succ fuel, m, rootSig, rootKey, check, discharges =>
    let rs := if rootSig.isEmpty then m.sig else rootSig
    verifyCaveats (fun dm cavKey => verify fuel dm rs cavKey check discharges)
      m rs check discharges (keyedHash rootKey m.id) 0 m.caveats

/-- Verify from macaroon.go (lines 194-199): start the walk from the
macaroon's own signature. -/
def Verify (fuel : Nat) (m : Macaroon) (rootKey : Bytes) (check : Checker)
    (discharges : List Macaroon) : VOut :=
  verify fuel m m.sig rootKey check discharges

/-! ### Store-passing form of verify (for the frame property)

The Go verifier works on heap-allocated macaroons reached through pointers.
To express the absence of mutation, the same code is translated a second time
in state-passing style: the store holds every macaroon object, macaroons are
addressed by index, every field access is a store read, and each call returns
the (possibly updated) store. The translation has exactly the reads the source
has; a write to a macaroon field would surface as a store update. -/

/-- The store of macaroon objects; an index plays the role of a pointer. -/
abbrev Store := List Macaroon

/-- Dereference a macaroon pointer. -/
def getM (store : Store) (i : Nat) : Macaroon :=
  store.getD i { location := [], id := [], caveats := [], sig := [] }

/-- Store-passing translation of the discharge-scanning loop. -/
def dischargeLoopSt (f : Nat → Store → VOut × Store) (cavId : Bytes) :
    Option VOut → Store → List Nat → Option VOut × Store
  | acc, store, [] => (acc, store)
  | acc, store, di :: rest =>
    if (getM store di).id = cavId then
      match f di store with
      | (.ok, store1) => (some .ok, store1)
      | (.out, store1) => (some .out, store1)
      | (.err e, store1) => dischargeLoopSt f cavId (some (.err e)) store1 rest
    else dischargeLoopSt f cavId acc store rest

/-- Store-passing translation of the caveat loop of verify. -/
def verifyCaveatsSt (recurse : Nat → Bytes → Store → VOut × Store) (mi : Nat) (rootSig : Bytes)
    (check : Checker) (dis : List Nat) :
    Bytes → Nat → List Caveat → Store → VOut × Store
  | caveatSig, _, [], store =>
    ((if bindForRequest rootSig caveatSig = (getM store mi).sig then .ok else .err .sigMismatch),
      store)
  | caveatSig, i, cav :: rest, store =>
    if cav.IsThirdParty then
      match decrypt caveatSig cav.verificationId with
      | .error e => (.err (.decryptCaveat i e), store)
      | .ok cavKey =>
        match dischargeLoopSt (fun di st => recurse di cavKey st) cav.caveatId none store dis with
        | (none, store1) => (.err (.dischargeNotFound cav.caveatId), store1)
        | (some .ok, store1) =>
          verifyCaveatsSt recurse mi rootSig check dis
            (keyedHash caveatSig (cav.verificationId ++ cav.caveatId)) (i + 1) rest store1
        | (some r, store1) => (r, store1)
    else
      match check cav.caveatId with
      | some e => (.err (.checkFail e), store)
      | none =>
        verifyCaveatsSt recurse mi rootSig check dis
          (keyedHash caveatSig (cav.verificationId ++ cav.caveatId)) (i + 1) rest store

/-- Store-passing translation of verify. -/
def verifySt : Nat → Nat → Bytes → Bytes → Checker → List Nat → Store → VOut × Store
  | 0, _, _, _, _, _, store => (.out, store)
  | Nat.succ fuel, mi, rootSig, rootKey, check, dis, store =>
    let m := getM store mi
    let rs := if rootSig.isEmpty then m.sig else rootSig
    verifyCaveatsSt (fun di cavKey st => verifySt fuel di rs cavKey check dis st)
      mi rs check dis (keyedHash rootKey m.id) 0 m.caveats store

/-- Store-passing translation of Verify. -/
def VerifySt (fuel : Nat) (mi : Nat) (rootKey : Bytes) (check : Checker) (dis : List Nat)
    (store : Store) : VOut × Store :=
  verifySt fuel mi (getM store mi).sig rootKey check dis store

/-! ### The V1 packet codec (packet.go / the final repository's parsePacketV1) -/

/-- hexDigits from packet.go: the lowercase hex digit characters. -/
def hexDigits : Bytes :=
  [48, 49, 50, 51, 52, 53, 54, 55, 56, 57, 97, 98, 99, 100, 101, 102]

/-- appendSize from packet.go: append the four lowercase hex digits of `size`. -/
def appendSize (data : Bytes) (size : Nat) : Bytes :=
  data ++ [hexDigits.getD (size >>> 12) 0, hexDigits.getD ((size >>> 8) % 16) 0,
    hexDigits.getD ((size >>> 4) % 16) 0, hexDigits.getD (size % 16) 0]

/-- asciiHex from packet.go: only the lowercase digits 0-9 and a-f are
accepted. -/
def asciiHex (b : Nat) : Option Nat :=
  if 48 ≤ b ∧ b ≤ 57 then some (b - 48)
  else if 97 ≤ b ∧ b ≤ 102 then some (b - 97 + 10)
  else none

/-- parseSize from packet.go: parse the four leading hex digits. -/
def parseSize (data : Bytes) : Option Nat :=
  match data with
  | d0 :: d1 :: d2 :: d3 :: _ =>
    match asciiHex d0, asciiHex d1, asciiHex d2, asciiHex d3 with
    | some x0, some x1, some x2, some x3 => some (x0 * 4096 + x1 * 256 + x2 * 16 + x3)
    | _, _, _, _ => none
  | _ => none

/-- maxPacketV1Len from the source: total V1 packet length limit. -/
def maxPacketV1Len : Nat := 65535

/-- A parsed V1 packet: field name, payload, total length consumed. -/
structure packetV1 where
  fieldName : Bytes
  data : Bytes
  totalLen : Nat
deriving DecidableEq

/-- parsePacketV1: parse the packet at the start of the data (packet.go's
parsePacket): 4 hex digits of total size, field name, one space, payload, and
a terminating newline. -/
def parsePacketV1 (data : Bytes) : Except String packetV1 :=
  if data.length < 6 then .error "packet too short"
  else
    match parseSize data with
    | none => .error "cannot parse size"
    | some plen =>
      if plen > data.length then .error "packet size too big"
      else
        let d := (data.take plen).drop 4
        match d.findIdx? (fun b => b == 32) with
        | none => .error "cannot parse field name"
        | some i =>
          if i = 0 then .error "cannot parse field name"
          else if d.getD (d.length - 1) 0 ≠ 10 then .error "no terminating newline found"
          else .ok { fieldName := d.take i, data := (d.drop (i + 1)).take (d.length - 1 - (i + 1)),
                     totalLen := plen }

/-- packetSize from packet.go. -/
def packetSizeV1 (field data : Bytes) : Nat :=
  4 + field.length + 1 + data.length + 1

/-- appendPacketV1: append a packet, failing (`none`) when it would exceed the
V1 length limit. -/
def appendPacketV1 (buf field data : Bytes) : Option Bytes :=
  if packetSizeV1 field data > maxPacketV1Len then none
  else some (appendSize buf (packetSizeV1 field data) ++ field ++ [32] ++ data ++ [10])

/-- Field name "location". -/
def fieldNameLocation : Bytes := [108, 111, 99, 97, 116, 105, 111, 110]

/-- Field name "identifier". -/
def fieldNameIdentifier : Bytes := [105, 100, 101, 110, 116, 105, 102, 105, 101, 114]

/-- Field name "signature". -/
def fieldNameSignature : Bytes := [115, 105, 103, 110, 97, 116, 117, 114, 101]

/-- Field name "cid". -/
def fieldNameCaveatId : Bytes := [99, 105, 100]

/-- Field name "vid". -/
def fieldNameVerificationId : Bytes := [118, 105, 100]

/-- Field name "cl". -/
def fieldNameCaveatLocation : Bytes := [99, 108]

/-- hashLen: length of an HMAC-SHA-256 signature. -/
def hashLen : Nat := 32

/-! ### The V1 binary serializer (marshal-v1.go) -/

namespace V1

/-- Caveat in the marshal-v1.go era: exported fields; the verification id is a
nil-able byte slice, modelled with Option (none for Go nil). -/
structure Caveat where
  Id : Bytes
  VerificationId : Option Bytes
  Location : Bytes
deriving DecidableEq

/-- Macaroon in the marshal-v1.go era. The Go signature field is a fixed
32-byte array; here a byte list, with the 32-byte fact carried as a
hypothesis where it matters. -/
structure Macaroon where
  location : Bytes
  id : Bytes
  caveats : List Caveat
  sig : Bytes
deriving DecidableEq

end V1

/-- expectPacketV1 from marshal-v1.go: parse a packet and insist on its field
name. -/
def expectPacketV1 (data kind : Bytes) : Except String packetV1 :=
  match parsePacketV1 data with
  | .error e => .error e
  | .ok p => if p.fieldName = kind then .ok p else .error "unexpected field"

/-- The caveat part of appendBinary (marshal-v1.go lines 189-205): cid, then,
when the verification id is non-nil, vid and cl. -/
def appendCaveatsBinary (data : Bytes) : List V1.Caveat → Except String Bytes
  | [] => .ok data
  | cav :: rest =>
    match appendPacketV1 data fieldNameCaveatId cav.Id with
    | none => .error "failed to append caveat id to macaroon, packet is too long"
    | some d1 =>
      match cav.VerificationId with
      | none => appendCaveatsBinary d1 rest
      | some vid =>
        match appendPacketV1 d1 fieldNameVerificationId vid with
        | none => .error "failed to append verification id to macaroon, packet is too long"
        | some d2 =>
          match appendPacketV1 d2 fieldNameCaveatLocation cav.Location with
          | none => .error "failed to append verification id to macaroon, packet is too long"
          | some d3 => appendCaveatsBinary d3 rest

/-- appendBinary from marshal-v1.go: location, identifier, caveats, signature. -/
def appendBinary (m : V1.Macaroon) (data : Bytes) : Except String Bytes :=
  match appendPacketV1 data fieldNameLocation m.location with
  | none => .error "failed to append location to macaroon, packet is too long"
  | some d1 =>
    match appendPacketV1 d1 fieldNameIdentifier m.id with
    | none => .error "failed to append identifier to macaroon, packet is too long"
    | some d2 =>
      match appendCaveatsBinary d2 m.caveats with
      | .error e => .error e
      | .ok d3 =>
        match appendPacketV1 d3 fieldNameSignature m.sig with
        | none => .error "failed to append signature to macaroon, packet is too long"
        | some d4 => .ok d4

/-- The caveat being accumulated by the decoder (`var cav Caveat` in Go): the
id and verification id are nil-able slices, the location a string. -/
structure partialCaveat where
  Id : Option Bytes
  VerificationId : Option Bytes
  Location : Bytes
deriving DecidableEq

/-- The flush performed when the decoder hits the signature packet:
`if cav.Id != nil` append the accumulated caveat. -/
def flushCaveat (acc : List V1.Caveat) (cav : partialCaveat) : List V1.Caveat :=
  match cav.Id with
  | none => acc
  | some i => acc ++ [{ Id := i, VerificationId := cav.VerificationId, Location := cav.Location }]

/-- The packet loop of unmarshalBinaryNoCopy (marshal-v1.go lines 120-157),
with a recursion fuel (every accepted packet consumes at least six bytes, so
the fuel supplied by `unmarshalBinaryNoCopy` can never run out). -/
def readPacketsV1 : Nat → Bytes → Bytes → List V1.Caveat → partialCaveat → Bytes →
    Except String (V1.Macaroon × Bytes)
  | 0, _, _, _, _, _ => .error "packet fuel exhausted"
  | Nat.succ fuel, loc, mid, acc, cav, data =>
    match parsePacketV1 data with
    | .error e => .error e
    | .ok p =>
      let rest := data.drop p.totalLen
      if p.fieldName = fieldNameSignature then
        if p.data.length ≠ hashLen then .error "signature has unexpected length"
        else .ok ({ location := loc, id := mid, caveats := flushCaveat acc cav, sig := p.data },
          rest)
      else if p.fieldName = fieldNameCaveatId then
        match cav.Id with
        | some i =>
          readPacketsV1 fuel loc mid
            (acc ++ [{ Id := i, VerificationId := cav.VerificationId, Location := cav.Location }])
            { Id := some p.data, VerificationId := none, Location := [] } rest
        | none => readPacketsV1 fuel loc mid acc { cav with Id := some p.data } rest
      else if p.fieldName = fieldNameVerificationId then
        if cav.VerificationId ≠ none then .error "repeated field vid in caveat"
        else readPacketsV1 fuel loc mid acc { cav with VerificationId := some p.data } rest
      else if p.fieldName = fieldNameCaveatLocation then
        if cav.Location ≠ [] then .error "repeated field location in caveat"
        else readPacketsV1 fuel loc mid acc { cav with Location := p.data } rest
      else .error "unexpected field"

/-- unmarshalBinaryNoCopy from marshal-v1.go: location packet, identifier
packet, then the caveat/signature packet loop; returns the macaroon and the
data following it. -/
def unmarshalBinaryNoCopy (data : Bytes) : Except String (V1.Macaroon × Bytes) :=
  match expectPacketV1 data fieldNameLocation with
  | .error e => .error e
  | .ok pl =>
    let d1 := data.drop pl.totalLen
    match expectPacketV1 d1 fieldNameIdentifier with
    | .error e => .error e
    | .ok pi =>
      let d2 := d1.drop pi.totalLen
      readPacketsV1 (d2.length + 1) pl.data pi.data []
        { Id := none, VerificationId := none, Location := [] } d2

/-! ### Base64 and the JSON shape (marshal-v1.go / marshal.go) -/

/-- The standard base64 alphabet (A-Z a-z 0-9 + /) as character codes. -/
def b64StdAlphabet : Bytes :=
  (List.range 26).map (fun i => i + 65) ++ (List.range 26).map (fun i => i + 97) ++
    (List.range 10).map (fun i => i + 48) ++ [43, 47]

/-- The URL-safe base64 alphabet (A-Z a-z 0-9 - _) as character codes. -/
def b64UrlAlphabet : Bytes :=
  (List.range 26).map (fun i => i + 65) ++ (List.range 26).map (fun i => i + 97) ++
    (List.range 10).map (fun i => i + 48) ++ [45, 95]

/-- Character of a sextet in the standard alphabet. -/
def alStd (s : Nat) : Nat := b64StdAlphabet.getD s 0

/-- Character of a sextet in the URL-safe alphabet. -/
def alUrl (s : Nat) : Nat := b64UrlAlphabet.getD s 0

/-- Sextet of a character in the standard alphabet, if any. -/
def stdIdx (c : Nat) : Option Nat := b64StdAlphabet.findIdx? (fun b => b == c)

/-- Sextet of a character in the URL-safe alphabet, if any. -/
def urlIdx (c : Nat) : Option Nat := b64UrlAlphabet.findIdx? (fun b => b == c)

/-- Base64 encoding in three-byte groups over a given alphabet, optionally
padded with `=` (61). Models Go's encoding/base64 encoders. -/
def b64EncodeGroups (al : Nat → Nat) (pad : Bool) : Bytes → Bytes
  | b1 :: b2 :: b3 :: rest =>
    [al (b1 / 4), al (b1 % 4 * 16 + b2 / 16), al (b2 % 16 * 4 + b3 / 64), al (b3 % 64)] ++
      b64EncodeGroups al pad rest
  | [b1, b2] =>
    [al (b1 / 4), al (b1 % 4 * 16 + b2 / 16), al (b2 % 16 * 4)] ++ (if pad then [61] else [])
  | [b1] => [al (b1 / 4), al (b1 % 4 * 16)] ++ (if pad then [61, 61] else [])
  | [] => []

/-- Go base64.StdEncoding.EncodeToString: standard alphabet, padded. -/
def base64StdEncode (v : Bytes) : Bytes := b64EncodeGroups alStd true v

/-- Go base64.RawURLEncoding.EncodeToString: URL-safe alphabet, no padding. -/
def base64RawURLEncode (v : Bytes) : Bytes := b64EncodeGroups alUrl false v

/-- Go base64.StdEncoding.DecodeString: four-character groups, padding `=`
only at the end of the final group, length a multiple of four. -/
def b64DecodeStd : Bytes → Option Bytes
  | [] => some []
  | c1 :: c2 :: c3 :: c4 :: rest =>
    match stdIdx c1, stdIdx c2 with
    | some s1, some s2 =>
      if c3 = 61 then
        if c4 = 61 ∧ rest = [] then some [s1 * 4 + s2 / 16] else none
      else
        match stdIdx c3 with
        | some s3 =>
          if c4 = 61 then
            if rest = [] then some [s1 * 4 + s2 / 16, s2 % 16 * 16 + s3 / 4] else none
          else
            match stdIdx c4 with
            | some s4 =>
              (b64DecodeStd rest).map
                (fun bs => [s1 * 4 + s2 / 16, s2 % 16 * 16 + s3 / 4, s3 % 4 * 64 + s4] ++ bs)
            | none => none
        | none => none
    | _, _ => none
  | _ => none

/-- Go base64.RawURLEncoding.DecodeString: no padding characters; a final
group of two or three characters encodes one or two bytes. -/
def b64DecodeRawURL : Bytes → Option Bytes
  | [] => some []
  | [c1, c2] =>
    match urlIdx c1, urlIdx c2 with
    | some s1, some s2 => some [s1 * 4 + s2 / 16]
    | _, _ => none
  | [c1, c2, c3] =>
    match urlIdx c1, urlIdx c2, urlIdx c3 with
    | some s1, some s2, some s3 => some [s1 * 4 + s2 / 16, s2 % 16 * 16 + s3 / 4]
    | _, _, _ => none
  | c1 :: c2 :: c3 :: c4 :: rest =>
    match urlIdx c1, urlIdx c2, urlIdx c3, urlIdx c4 with
    | some s1, some s2, some s3, some s4 =>
      (b64DecodeRawURL rest).map
        (fun bs => [s1 * 4 + s2 / 16, s2 % 16 * 16 + s3 / 4, s3 % 4 * 64 + s4] ++ bs)
    | _, _, _, _ => none
  | _ => none

/-- base64Decode from marshal-v1.go: try the standard (padded) decoder first,
fall back to the raw URL-safe (unpadded) decoder. -/
def base64Decode (s : Bytes) : Except String Bytes :=
  match b64DecodeStd s with
  | some data => .ok data
  | none =>
    match b64DecodeRawURL s with
    | some data => .ok data
    | none => .error "illegal base64 data"

/-- Model of Go's utf8.Valid. -/
def utf8Valid : Bytes → Bool
  | [] => true
  | b :: rest =>
    if b < 128 then utf8Valid rest
    else if 194 ≤ b ∧ b ≤ 223 then
      match rest with
      | c1 :: r => (128 ≤ c1 && c1 ≤ 191) && utf8Valid r
      | [] => false
    else if b = 224 then
      match rest with
      | c1 :: c2 :: r => ((160 ≤ c1 && c1 ≤ 191) && (128 ≤ c2 && c2 ≤ 191)) && utf8Valid r
      | _ => false
    else if (225 ≤ b ∧ b ≤ 236) ∨ b = 238 ∨ b = 239 then
      match rest with
      | c1 :: c2 :: r => ((128 ≤ c1 && c1 ≤ 191) && (128 ≤ c2 && c2 ≤ 191)) && utf8Valid r
      | _ => false
    else if b = 237 then
      match rest with
      | c1 :: c2 :: r => ((128 ≤ c1 && c1 ≤ 159) && (128 ≤ c2 && c2 ≤ 191)) && utf8Valid r
      | _ => false
    else if b = 240 then
      match rest with
      | c1 :: c2 :: c3 :: r =>
        ((144 ≤ c1 && c1 ≤ 191) && ((128 ≤ c2 && c2 ≤ 191) && (128 ≤ c3 && c3 ≤ 191))) &&
          utf8Valid r
      | _ => false
    else if 241 ≤ b ∧ b ≤ 243 then
      match rest with
      | c1 :: c2 :: c3 :: r =>
        ((128 ≤ c1 && c1 ≤ 191) && ((128 ≤ c2 && c2 ≤ 191) && (128 ≤ c3 && c3 ≤ 191))) &&
          utf8Valid r
      | _ => false
    else if b = 244 then
      match rest with
      | c1 :: c2 :: c3 :: r =>
        ((128 ≤ c1 && c1 ≤ 143) && ((128 ≤ c2 && c2 ≤ 191) && (128 ≤ c3 && c3 ≤ 191))) &&
          utf8Valid r
      | _ => false
    else false

/-- Lowercase hex encoding (Go's hex.EncodeToString). -/
def hexEncode (v : Bytes) : Bytes :=
  v.flatMap (fun b => [hexDigits.getD (b / 16) 0, hexDigits.getD (b % 16) 0])

/-- caveatJSON from marshal-v1.go: the JSON shape of a caveat (string fields as
byte strings; VID holds the base64 characters). -/
structure caveatJSON where
  CID : Bytes
  VID : Bytes
  Location : Bytes
deriving DecidableEq

/-- macaroonJSON from marshal-v1.go: the JSON shape of a macaroon. -/
structure macaroonJSON where
  Caveats : List caveatJSON
  Location : Bytes
  Identifier : Bytes
  Signature : Bytes
deriving DecidableEq

/-- The caveat part of MarshalJSON (marshal-v1.go lines 37-46): check the
caveat id is UTF-8 and emit the verification id in raw URL-safe base64
(a nil verification id encodes to the empty string). -/
def caveatsToJSON : List V1.Caveat → Except String (List caveatJSON)
  | [] => .ok []
  | cav :: rest =>
    if utf8Valid cav.Id = false then .error "caveat id is not valid UTF-8"
    else
      match caveatsToJSON rest with
      | .error e => .error e
      | .ok js =>
        .ok ({ CID := cav.Id, VID := base64RawURLEncode (cav.VerificationId.getD []),
               Location := cav.Location } :: js)

/-- MarshalJSON from marshal-v1.go, modelled to the macaroonJSON struct level
(the generic JSON text rendering of encoding/json is external). -/
def MarshalJSONV1 (m : V1.Macaroon) : Except String macaroonJSON :=
  if utf8Valid m.id = false then .error "macaroon id is not valid UTF-8"
  else
    match caveatsToJSON m.caveats with
    | .error e => .error e
    | .ok js =>
      .ok { Caveats := js, Location := m.location, Identifier := m.id,
            Signature := hexEncode m.sig }

/-! ### Concrete fixtures used by witnesses and counterexamples -/

/-- A small root key. -/
def bytesA : Bytes := [1, 2, 3]

/-- A third-party root key. -/
def bytesB : Bytes := [4, 5, 6, 7]

/-- A macaroon identifier ("id0"). -/
def idBytesA : Bytes := [105, 100, 48]

/-- A location. -/
def locBytesA : Bytes := [108, 65]

/-- Another location. -/
def locBytesB : Bytes := [108, 66]

/-- A caveat id. -/
def cidBytesA : Bytes := [99, 65]

/-- A reader that always yields 24 bytes and no error. -/
def rngA : Reader := fun _ => (List.replicate 24 7, none)

/-- A reader that yields only ten bytes, with no error. -/
def rngShort : Reader := fun _ => ([0, 1, 2, 3, 4, 5, 6, 7, 8, 9], none)

/-- A reader that reports an error. -/
def rngBad : Reader := fun _ => ([], some "fail")

/-- A checker accepting every condition. -/
def checkOkA : Checker := fun _ => none

/-- A 33-byte root key (makeKey hashes it). -/
def key33 : Bytes := List.replicate 33 1

/-- A 31-byte third-party root key (makeKey zero-pads it to 32 bytes). -/
def key31 : Bytes := List.replicate 31 2

/-- The self-referential macaroon: its only caveat is a third-party caveat
whose caveat id is the macaroon's own id and whose verification id decrypts,
under the macaroon's own chain, to the macaroon's own root key. -/
def selfLoopMacaroon : Macaroon :=
  addCaveat (New bytesA idBytesA locBytesA) idBytesA
    ((encrypt (New bytesA idBytesA locBytesA).sig bytesA rngA).toOption.getD []) locBytesA

/-- The verification id actually produced when adding a third-party caveat
with the 31-byte root key. -/
def vidRaw31 : Bytes :=
  (encrypt (New bytesA idBytesA locBytesA).sig key31 rngA).toOption.getD []

/-- The verification id the claim predicts for the same call: the secretbox
ciphertext of the normalized root key. -/
def vidNorm31 : Bytes :=
  (encrypt (New bytesA idBytesA locBytesA).sig (makeKey key31) rngA).toOption.getD []

/-- The verification id produced with the ten-byte reader. -/
def vidShort10 : Bytes :=
  (encrypt (New bytesA idBytesA locBytesA).sig bytesB rngShort).toOption.getD []

/-- A V1-era macaroon with one third-party and one first-party caveat, both
with empty first-party locations. -/
def v1MacA : V1.Macaroon :=
  { location := [108], id := [105, 100],
    caveats := [{ Id := [99, 49], VerificationId := some [1, 2, 3], Location := [108, 111, 99] },
                { Id := [99, 50], VerificationId := none, Location := [] }],
    sig := List.replicate 32 9 }

/-- A V1-era macaroon whose only caveat is first-party but carries a
location. -/
def v1MacBadLoc : V1.Macaroon :=
  { location := [108], id := [105, 100],
    caveats := [{ Id := [99, 49], VerificationId := none, Location := [120] }],
    sig := List.replicate 32 9 }

/-- First attenuation for the discharge-reuse scenario. -/
def P1w : Macaroon :=
  addCaveat (New bytesA idBytesA locBytesA) cidBytesA
    ((encrypt (New bytesA idBytesA locBytesA).sig bytesB rngA).toOption.getD []) locBytesB

/-- Second attenuation for the discharge-reuse scenario: a second third-party
caveat with the same caveat id and root key. -/
def P2w : Macaroon :=
  addCaveat P1w cidBytesA ((encrypt P1w.sig bytesB rngA).toOption.getD []) locBytesB

/-- The four lowercase hex digit characters of a packet size (the digits
appendSize produces). -/
def hex4 (size : Nat) : Bytes :=
  [hexDigits.getD (size >>> 12) 0, hexDigits.getD ((size >>> 8) % 16) 0,
   hexDigits.getD ((size >>> 4) % 16) 0, hexDigits.getD (size % 16) 0]

/-- The byte string of one V1 packet, as appendPacketV1 lays it out. -/
def pktV1 (field data : Bytes) : Bytes :=
  hex4 (packetSizeV1 field data) ++ field ++ [32] ++ data ++ [10]

/-- The byte string appendBinary produces for one caveat. -/
def encCaveat (cav : V1.Caveat) : Bytes :=
  pktV1 fieldNameCaveatId cav.Id ++
    (match cav.VerificationId with
     | none => []
     | some v => pktV1 fieldNameVerificationId v ++ pktV1 fieldNameCaveatLocation cav.Location)

/-- The byte string appendBinary produces for a caveat list. -/
def encCaveats (cavs : List V1.Caveat) : Bytes :=
  (cavs.map encCaveat).flatten

/-- Whether every packet of a caveat fits the V1 length limit. -/
def cavFits (cav : V1.Caveat) : Bool :=
  decide (packetSizeV1 fieldNameCaveatId cav.Id ≤ maxPacketV1Len) &&
    (match cav.VerificationId with
     | none => true
     | some v =>
       decide (packetSizeV1 fieldNameVerificationId v ≤ maxPacketV1Len) &&
         decide (packetSizeV1 fieldNameCaveatLocation cav.Location ≤ maxPacketV1Len))

/-- The V1 encoding of `v1MacBadLoc`. -/
def v1BadLocBytes : Bytes := (appendBinary v1MacBadLoc []).toOption.getD []

/-- The V1 encoding of `v1MacA`. -/
def v1MacABytes : Bytes := (appendBinary v1MacA []).toOption.getD []

/-- A V1 macaroon with a third-party caveat whose verification id is the two
bytes 0xfb 0xef, whose URL-safe and standard base64 encodings differ. -/
def v1MacC9 : V1.Macaroon :=
  V1.Macaroon.mk [108] [105, 100]
    [V1.Caveat.mk [99, 49] (some [251, 239]) [108]] (List.replicate 32 9)

/-- The JSON shape MarshalJSON produces for `v1MacC9`: the vid field holds the
bytes of the string "--8", the raw URL-safe unpadded base64 of 0xfb 0xef. -/
def v1MacC9JSON : macaroonJSON :=
  macaroonJSON.mk [caveatJSON.mk [99, 49] [45, 45, 56] [108]] [108] [105, 100]
    (hexEncode (List.replicate 32 9))

/-! ### Helper lemmas -/

theorem digest32_length (seed : Nat) (msg : Bytes) : (digest32 seed msg).length = 32 := by
  simp [digest32]

theorem keyedHash_isEmpty (key text : Bytes) : (keyedHash key text).isEmpty = false := by
  rw [List.isEmpty_eq_false_iff_exists_mem]
  have h := digest32_length (2 + 3 * key.length) (key ++ text)
  rcases hd : digest32 (2 + 3 * key.length) (key ++ text) with _ | ⟨a, t⟩
  · rw [hd] at h; simp at h
  · exact ⟨a, by simp [keyedHash, hd]⟩

theorem bindForRequest_self (s : Bytes) : bindForRequest s s = s := by
  simp [bindForRequest]

theorem sealTag_length (key nonce text : Bytes) : (sealTag key nonce text).length = 16 := by
  simp [sealTag, digest32]

theorem secretboxOpen_seal (key nonce text : Bytes) :
    secretboxOpen key nonce (secretboxSeal key nonce text) = some text := by
  have ht := sealTag_length key nonce text
  have hlen : (secretboxSeal key nonce text).length = text.length + 16 := by
    simp [secretboxSeal, ht]
  rw [secretboxOpen, if_neg (by rw [hlen]; simp [secretboxOverhead])]
  have harith : (secretboxSeal key nonce text).length - secretboxOverhead = text.length := by
    rw [hlen]; simp [secretboxOverhead]
  rw [harith]
  rw [show (secretboxSeal key nonce text).take text.length = text from by
    simp [secretboxSeal]]
  rw [show (secretboxSeal key nonce text).drop text.length = sealTag key nonce text from by
    simp [secretboxSeal]]
  rw [if_pos rfl]

theorem newNonce_ok_length (r : Reader) (n : Bytes) (h : newNonce r = .ok n) :
    n.length = nonceLen := by
  rw [newNonce] at h
  rcases hr : r nonceLen with ⟨bs, e⟩
  rw [hr] at h
  cases e with
  | none =>
    simp only [Except.ok.injEq] at h
    rw [← h]
    simp [nonceLen]
  | some e => simp at h

theorem encrypt_ok_elim (key text : Bytes) (r : Reader) (v : Bytes)
    (h : encrypt key text r = .ok v) :
    ∃ n, n.length = nonceLen ∧ v = n ++ secretboxSeal (makeKey key) n text := by
  rw [encrypt] at h
  rcases hn : newNonce r with e | n
  · rw [hn] at h; simp at h
  · rw [hn] at h
    simp only [Except.ok.injEq] at h
    exact ⟨n, newNonce_ok_length r n hn, h.symm⟩

theorem decrypt_encrypt (key text : Bytes) (r : Reader) (v : Bytes)
    (h : encrypt key text r = .ok v) : decrypt key v = .ok text := by
  obtain ⟨n, hn, hv⟩ := encrypt_ok_elim key text r v h
  have hslen : (secretboxSeal (makeKey key) n text).length = text.length + 16 := by
    simp [secretboxSeal, sealTag_length]
  rw [hv, decrypt, if_neg (by simp [hslen, hn, nonceLen, secretboxOverhead]; omega)]
  rw [show (n ++ secretboxSeal (makeKey key) n text).take nonceLen = n from by
    rw [← hn]; exact List.take_left n _]
  rw [show (n ++ secretboxSeal (makeKey key) n text).drop nonceLen = secretboxSeal (makeKey key) n text from by
    rw [← hn]; exact List.drop_left n _]
  rw [secretboxOpen_seal]

theorem encrypt_ok_length (key text : Bytes) (r : Reader) (v : Bytes)
    (h : encrypt key text r = .ok v) : v.length = nonceLen + text.length + secretboxOverhead := by
  obtain ⟨n, hn, hv⟩ := encrypt_ok_elim key text r v h
  rw [hv]
  simp [secretboxSeal, sealTag_length, hn, secretboxOverhead]
  omega

theorem verify_self_loop (m : Macaroon) (k : Bytes) (chk : Checker) (cav : Caveat)
    (rest : List Caveat)
    (hsig : m.sig.isEmpty = false)
    (hcavs : m.caveats = cav :: rest)
    (hthird : cav.IsThirdParty = true)
    (hdec : decrypt (keyedHash k m.id) cav.verificationId = .ok k)
    (hid : m.id = cav.caveatId) :
    ∀ fuel rootSig, rootSig = [] ∨ rootSig = m.sig →
      verify fuel m rootSig k chk [m] = .out := by
  intro fuel
  induction fuel with
  | zero => intro rootSig _; rfl
  | succ fuel ih =>
    intro rootSig hrs
    have hrs' : (if rootSig.isEmpty then m.sig else rootSig) = m.sig := by
      rcases hrs with h | h
      · subst h; simp
      · subst h; simp [hsig]
    simp only [verify, hrs', hcavs, verifyCaveats, hthird, if_true, hdec, dischargeLoop, ← hid,
      if_pos rfl]
    have ihe := ih m.sig (Or.inr rfl)
    simp only [ihe]

theorem verify_ignores_discharges (fuel : Nat) (k id loc : Bytes) (chk : Checker)
    (ds : List Macaroon) : Verify (fuel + 1) (New k id loc) k chk ds = .ok := by
  simp only [Verify, verify, New, keyedHash_isEmpty, Bool.false_eq_true, if_false,
    verifyCaveats, bindForRequest_self, if_pos rfl, if_true]

theorem verify_bound_empty (f : Nat) (kb bid locb rootSig : Bytes) (chk : Checker)
    (ds : List Macaroon) (h : rootSig.isEmpty = false) :
    verify (f + 1) ((New kb bid locb).Bind rootSig) rootSig kb chk ds = .ok := by
  simp only [verify, Macaroon.Bind, New, h, if_false, verifyCaveats, Bool.false_eq_true,
    if_pos rfl, if_true]

theorem verify_reuses_discharge (f : Nat) (k id loc kb bid locb : Bytes) (chk : Checker)
    (r1 r2 : Reader) (P1 P2 : Macaroon)
    (h1 : addThirdPartyCaveatWithRand (New k id loc) kb bid locb r1 = .ok P1)
    (h2 : addThirdPartyCaveatWithRand P1 kb bid locb r2 = .ok P2) :
    Verify (f + 2) P2 k chk [(New kb bid locb).Bind P2.sig] = .ok := by
  rw [addThirdPartyCaveatWithRand] at h1 h2
  rcases e1 : encrypt (New k id loc).sig kb r1 with e | v1
  · rw [e1] at h1; simp at h1
  rw [e1] at h1
  simp only [Except.ok.injEq] at h1
  rcases e2 : encrypt P1.sig kb r2 with e | v2
  · rw [e2] at h2; simp at h2
  rw [e2] at h2
  simp only [Except.ok.injEq] at h2
  subst h2
  subst h1
  have hl1 := encrypt_ok_length _ _ _ _ e1
  have hl2 := encrypt_ok_length _ _ _ _ e2
  have hthird1 : (Caveat.mk locb bid v1).IsThirdParty = true := by
    simp [Caveat.IsThirdParty, hl1, nonceLen, secretboxOverhead]
  have hthird2 : (Caveat.mk locb bid v2).IsThirdParty = true := by
    simp [Caveat.IsThirdParty, hl2, nonceLen, secretboxOverhead]
  have hd1 : decrypt (keyedHash k id) v1 = .ok kb := by
    have := decrypt_encrypt _ _ _ _ e1
    simpa [New] using this
  have hd2 : decrypt (keyedHash (keyedHash k id) (v1 ++ bid)) v2 = .ok kb := by
    have := decrypt_encrypt _ _ _ _ e2
    simpa [addCaveat, New] using this
  simp only [Verify, addCaveat, New, List.nil_append]
  simp only [verify, keyedHash_isEmpty, Bool.false_eq_true, if_false, verifyCaveats,
    hthird1, hthird2, if_true, hd1, hd2, dischargeLoop, Macaroon.Bind, if_pos rfl,
    verify_bound_empty, bindForRequest_self]

/-! ### Claim C1 -/

/-- C1: the verify of macaroon.go does not track discharge usage at all: a
primary with no caveats verifies successfully whatever discharges are supplied
(no unused-discharge error), and a single discharge is accepted for two
third-party caveats carrying the same caveat id (no reuse error). This is the
code's behaviour at the claim's failing inputs; the repository's test file
expects the claimed errors instead. -/
theorem macaroon_c1_verify_ignores_discharge_usage :
    (∀ fuel k id loc chk ds, Verify (fuel + 1) (New k id loc) k chk ds = .ok) ∧
    (∀ fuel k id loc kb bid locb chk r1 r2 P1 P2,
      addThirdPartyCaveatWithRand (New k id loc) kb bid locb r1 = .ok P1 →
      addThirdPartyCaveatWithRand P1 kb bid locb r2 = .ok P2 →
      Verify (fuel + 2) P2 k chk [(New kb bid locb).Bind P2.sig] = .ok) :=
  ⟨fun fuel k id loc chk ds => verify_ignores_discharges fuel k id loc chk ds,
   fun fuel k id loc kb bid locb chk r1 r2 P1 P2 h1 h2 =>
     verify_reuses_discharge fuel k id loc kb bid locb chk r1 r2 P1 P2 h1 h2⟩

/-- C1 witness: concrete unused discharge and reused discharge both verify ok. -/
theorem macaroon_c1_witness :
    Verify 1 (New bytesA idBytesA locBytesA) bytesA checkOkA [New bytesB cidBytesA locBytesB]
      = .ok ∧
    addThirdPartyCaveatWithRand (New bytesA idBytesA locBytesA) bytesB cidBytesA locBytesB rngA
      = .ok P1w ∧
    addThirdPartyCaveatWithRand P1w bytesB cidBytesA locBytesB rngA = .ok P2w ∧
    Verify 3 P2w bytesA checkOkA [(New bytesB cidBytesA locBytesB).Bind P2w.sig] = .ok :=
  ⟨macaroon_c1_verify_ignores_discharge_usage.1 0 bytesA idBytesA locBytesA checkOkA
      [New bytesB cidBytesA locBytesB],
   by decide, by decide,
   macaroon_c1_verify_ignores_discharge_usage.2 1 bytesA idBytesA locBytesA bytesB cidBytesA
     locBytesB checkOkA rngA rngA P1w P2w (by decide) (by decide)⟩

/-! ### Claim C2 -/

/-- C2: verify does not terminate on adversarial input. The self-referential
macaroon (its only caveat names the macaroon itself as discharge, with the
macaroon's own root key as the third-party key) is produced by the library's
own operations, and verify runs out of any finite fuel on it: the recursion
enters the identical state at every level, so the Go original recurses without
bound. -/
theorem macaroon_c2_self_loop_never_terminates :
    addThirdPartyCaveatWithRand (New bytesA idBytesA locBytesA) bytesA idBytesA locBytesA rngA
      = .ok selfLoopMacaroon ∧
    ∀ fuel, Verify fuel selfLoopMacaroon bytesA checkOkA [selfLoopMacaroon] = .out := by
  constructor
  · decide
  · intro fuel
    exact verify_self_loop selfLoopMacaroon bytesA checkOkA _ [] (by decide) rfl (by decide)
      (by decide) rfl fuel selfLoopMacaroon.sig (Or.inr rfl)

/-! ### Claim C3 -/

/-- C3 (amended): New(root_key, id, location) computes the initial signature as
keyed_hash(root_key, id) over the raw root key; makeKey normalization is not
applied by New. -/
theorem macaroon_c3_new_uses_raw_root_key : ∀ rootKey id loc,
    (New rootKey id loc).location = loc ∧ (New rootKey id loc).id = id ∧
    (New rootKey id loc).caveats = [] ∧ (New rootKey id loc).sig = keyedHash rootKey id :=
  fun _ _ _ => ⟨rfl, rfl, rfl, rfl⟩

/-- C3 counterexample: for a 33-byte root key (which makeKey would hash), the
signature produced by New differs from the claimed
keyed_hash(normalize_key(root_key), id). -/
theorem macaroon_c3_counterexample :
    (New key33 idBytesA locBytesA).sig ≠ keyedHash (makeKey key33) idBytesA := by
  decide

/-! ### Claim C4 -/

/-- C4 (amended): a successful AddThirdPartyCaveat appends a caveat whose
verification id is a fresh 24-byte nonce followed by the secretbox ciphertext
of the raw third-party root key under the normalized current signature, and
chains the signature over the verification id followed by the caveat id. -/
theorem macaroon_c4_add_third_party :
    ∀ (m : Macaroon) (rootKey caveatId loc : Bytes) (r : Reader) (nonce : Bytes),
    newNonce r = .ok nonce →
    nonce.length = 24 ∧
    addThirdPartyCaveatWithRand m rootKey caveatId loc r =
      .ok { m with
        caveats := m.caveats ++
          [Caveat.mk loc caveatId (nonce ++ secretboxSeal (makeKey m.sig) nonce rootKey)],
        sig := keyedHash m.sig
          ((nonce ++ secretboxSeal (makeKey m.sig) nonce rootKey) ++ caveatId) } := by
  intro m rootKey caveatId loc r nonce h
  refine ⟨newNonce_ok_length r nonce h, ?_⟩
  simp only [addThirdPartyCaveatWithRand, encrypt, h, addCaveat]

/-- C4 witness: concrete third-party caveat addition with a working reader. -/
theorem macaroon_c4_witness :
    newNonce rngA = .ok (List.replicate 24 7) ∧
    (List.replicate 24 7 : Bytes).length = 24 ∧
    addThirdPartyCaveatWithRand (New bytesA idBytesA locBytesA) bytesB cidBytesA locBytesB rngA =
      .ok { New bytesA idBytesA locBytesA with
        caveats := (New bytesA idBytesA locBytesA).caveats ++
          [Caveat.mk locBytesB cidBytesA
            (List.replicate 24 7 ++
              secretboxSeal (makeKey (New bytesA idBytesA locBytesA).sig)
                (List.replicate 24 7) bytesB)],
        sig := keyedHash (New bytesA idBytesA locBytesA).sig
          ((List.replicate 24 7 ++
            secretboxSeal (makeKey (New bytesA idBytesA locBytesA).sig)
              (List.replicate 24 7) bytesB) ++ cidBytesA) } :=
  ⟨by decide,
   (macaroon_c4_add_third_party (New bytesA idBytesA locBytesA) bytesB cidBytesA locBytesB rngA
      (List.replicate 24 7) (by decide)).1,
   (macaroon_c4_add_third_party (New bytesA idBytesA locBytesA) bytesB cidBytesA locBytesB rngA
      (List.replicate 24 7) (by decide)).2⟩

/-- C4 counterexample: with a 31-byte third-party root key the verification id
actually appended encrypts the raw key, not the normalized one; the claimed
value (ciphertext of normalize_key(root_key)) differs. -/
theorem macaroon_c4_counterexample :
    addThirdPartyCaveatWithRand (New bytesA idBytesA locBytesA) key31 cidBytesA locBytesB rngA
      = .ok (addCaveat (New bytesA idBytesA locBytesA) cidBytesA vidRaw31 locBytesB) ∧
    encrypt (New bytesA idBytesA locBytesA).sig (makeKey key31) rngA = .ok vidNorm31 ∧
    vidRaw31 ≠ vidNorm31 :=
  ⟨by decide, by decide, by decide⟩

/-! ### Claim C6 -/

/-- C6: Bind leaves every field but the signature unchanged; the signature is
untouched when the external signature equals the current one (so binding a
macaroon to its own signature is a no-op) and otherwise becomes the un-keyed
SHA-256 of the external signature followed by the current one. -/
theorem macaroon_c6_bind : ∀ (m : Macaroon) (extSig : Bytes),
    extSig.length = 32 →
    ((m.Bind extSig).location = m.location ∧ (m.Bind extSig).id = m.id ∧
     (m.Bind extSig).caveats = m.caveats ∧
     (m.Bind extSig).sig = (if extSig = m.sig then m.sig else sha256 (extSig ++ m.sig))) ∧
    m.Bind m.sig = m := by
  intro m extSig _
  constructor
  · refine ⟨rfl, rfl, rfl, ?_⟩
    by_cases h : extSig = m.sig
    · simp [Macaroon.Bind, bindForRequest, h]
    · simp [Macaroon.Bind, bindForRequest, h]
  · simp [Macaroon.Bind, bindForRequest]

/-- C6 witness at a concrete macaroon and 32-byte external signature. -/
theorem macaroon_c6_witness :
    (List.replicate 32 5 : Bytes).length = 32 ∧
    ((New bytesA idBytesA locBytesA).Bind (List.replicate 32 5)).sig
      = (if (List.replicate 32 5 : Bytes) = (New bytesA idBytesA locBytesA).sig
         then (New bytesA idBytesA locBytesA).sig
         else sha256 (List.replicate 32 5 ++ (New bytesA idBytesA locBytesA).sig)) :=
  ⟨by decide,
   ((macaroon_c6_bind (New bytesA idBytesA locBytesA) (List.replicate 32 5)
      (by decide)).1).2.2.2⟩

/-! ### Claim C7 -/

/-- C7 (amended): AddThirdPartyCaveat fails with the randomness error exactly
when the reader reports an error; the failure happens before any caveat is
appended, so no macaroon is produced. (A short read that reports no error is
accepted: see the counterexample.) -/
theorem macaroon_c7_randomness_failure :
    ∀ (m : Macaroon) (rootKey caveatId loc : Bytes) (r : Reader) (bs : Bytes) (e : String),
    r nonceLen = (bs, some e) →
    addThirdPartyCaveatWithRand m rootKey caveatId loc r
      = .error ("cannot generate random bytes: " ++ e) := by
  intro m rootKey caveatId loc r bs e h
  simp only [addThirdPartyCaveatWithRand, encrypt, newNonce, h]

/-- C7 witness: the error-reporting reader makes the operation fail. -/
theorem macaroon_c7_witness :
    rngBad nonceLen = ([], some "fail") ∧
    addThirdPartyCaveatWithRand (New bytesA idBytesA locBytesA) bytesB cidBytesA locBytesB rngBad
      = .error ("cannot generate random bytes: " ++ "fail") :=
  ⟨rfl,
   macaroon_c7_randomness_failure (New bytesA idBytesA locBytesA) bytesB cidBytesA locBytesB
     rngBad [] "fail" rfl⟩

/-- C7 counterexample: a reader that yields only ten bytes and no error is
accepted; the caveat is appended and no randomness error is reported,
refuting "fails whenever the source yields fewer than 24 bytes". -/
theorem macaroon_c7_counterexample :
    (rngShort nonceLen).1.length = 10 ∧
    addThirdPartyCaveatWithRand (New bytesA idBytesA locBytesA) bytesB cidBytesA locBytesB
      rngShort = .ok (addCaveat (New bytesA idBytesA locBytesA) cidBytesA vidShort10 locBytesB) :=
  ⟨by decide, by decide⟩

/-! ### Claim C10 -/

theorem dischargeLoopSt_preserves (f : Nat → Store → VOut × Store) (cavId : Bytes)
    (hf : ∀ di st, (f di st).2 = st) :
    ∀ (l : List Nat) (acc : Option VOut) (store : Store),
      (dischargeLoopSt f cavId acc store l).2 = store := by
  intro l
  induction l with
  | nil => intro acc store; rfl
  | cons di rest ih =>
    intro acc store
    simp only [dischargeLoopSt]
    by_cases h : (getM store di).id = cavId
    · rw [if_pos h]
      rcases hu : f di store with ⟨r, st1⟩
      have hst : st1 = store := by
        have := hf di store
        rw [hu] at this
        exact this
      cases r with
      | ok => exact hst
      | out => exact hst
      | err e => rw [ih (some (.err e)) st1]; exact hst
    · rw [if_neg h]
      exact ih acc store

theorem verifyCaveatsSt_preserves (recurse : Nat → Bytes → Store → VOut × Store)
    (mi : Nat) (rootSig : Bytes) (check : Checker) (dis : List Nat)
    (hrec : ∀ di ck st, (recurse di ck st).2 = st) :
    ∀ (cavs : List Caveat) (caveatSig : Bytes) (i : Nat) (store : Store),
      (verifyCaveatsSt recurse mi rootSig check dis caveatSig i cavs store).2 = store := by
  intro cavs
  induction cavs with
  | nil => intro caveatSig i store; rfl
  | cons cav rest ih =>
    intro caveatSig i store
    simp only [verifyCaveatsSt]
    by_cases h3 : cav.IsThirdParty
    · rw [if_pos h3]
      rcases hdec : decrypt caveatSig cav.verificationId with e | cavKey
      · rfl
      · have hpre := dischargeLoopSt_preserves (fun di st => recurse di cavKey st) cav.caveatId
          (fun di st => hrec di cavKey st) dis none store
        rcases hd : dischargeLoopSt (fun di st => recurse di cavKey st) cav.caveatId none store dis
          with ⟨or, store1⟩
        have hst : store1 = store := by rw [hd] at hpre; exact hpre
        show (match dischargeLoopSt (fun di st => recurse di cavKey st) cav.caveatId none store
            dis with
          | (none, store1) => (VOut.err (MErr.dischargeNotFound cav.caveatId), store1)
          | (some VOut.ok, store1) =>
            verifyCaveatsSt recurse mi rootSig check dis
              (keyedHash caveatSig (cav.verificationId ++ cav.caveatId)) (i + 1) rest store1
          | (some r, store1) => (r, store1)).2 = store
        rw [hd]
        rcases or with _ | r
        · exact hst
        · cases r with
          | ok => rw [ih _ _ store1]; exact hst
          | out => exact hst
          | err e => exact hst
    · rw [if_neg h3]
      rcases hc : check cav.caveatId with _ | e
      · exact ih _ _ store
      · rfl

theorem verifySt_preserves :
    ∀ (fuel : Nat) (mi : Nat) (rootSig rootKey : Bytes) (check : Checker) (dis : List Nat)
      (store : Store), (verifySt fuel mi rootSig rootKey check dis store).2 = store := by
  intro fuel
  induction fuel with
  | zero => intro mi rootSig rootKey check dis store; rfl
  | succ fuel ih =>
    intro mi rootSig rootKey check dis store
    simp only [verifySt]
    exact verifyCaveatsSt_preserves _ _ _ _ _ (fun di ck st => ih di _ ck check dis st) _ _ _ _

/-- C10: the store-passing translation of Verify and of its recursive helper
returns the store unchanged on every input - success, error or fuel
exhaustion alike - so neither the primary macaroon nor any discharge is
mutated by verification. -/
theorem macaroon_c10_verify_frame :
    ∀ (fuel : Nat) (mi : Nat) (rootKey : Bytes) (check : Checker) (dis : List Nat)
      (store : Store),
      (VerifySt fuel mi rootKey check dis store).2 = store ∧
      ∀ rootSig, (verifySt fuel mi rootSig rootKey check dis store).2 = store :=
  fun fuel mi rootKey check dis store =>
    ⟨verifySt_preserves fuel mi _ rootKey check dis store,
     fun rootSig => verifySt_preserves fuel mi rootSig rootKey check dis store⟩

/-! ### Claim C8 -/

theorem parseSize_none_of_bad (d0 d1 d2 d3 : Nat) (rest : Bytes)
    (h : asciiHex d0 = none ∨ asciiHex d1 = none ∨ asciiHex d2 = none ∨ asciiHex d3 = none) :
    parseSize (d0 :: d1 :: d2 :: d3 :: rest) = none := by
  simp only [parseSize]
  rcases h0 : asciiHex d0 with _ | x0
  · rfl
  rcases h1 : asciiHex d1 with _ | x1
  · rfl
  rcases h2 : asciiHex d2 with _ | x2
  · rfl
  rcases h3 : asciiHex d3 with _ | x3
  · rfl
  rcases h with h | h | h | h <;> simp_all

theorem asciiHex_upper_none (b : Nat) (h1 : 65 ≤ b) (h2 : b ≤ 70) : asciiHex b = none := by
  rw [asciiHex, if_neg (by omega), if_neg (by omega)]

theorem parsePacketV1_rejects_upper (data : Bytes) (j b : Nat) (hj : j < 4)
    (hget : data[j]? = some b) (hb1 : 65 ≤ b) (hb2 : b ≤ 70) :
    ∃ e, parsePacketV1 data = .error e := by
  by_cases hlen : data.length < 6
  · exact ⟨_, by rw [parsePacketV1, if_pos hlen]⟩
  · have hnone : parseSize data = none := by
      rcases data with _ | ⟨d0, data⟩
      · simp at hlen
      rcases data with _ | ⟨d1, data⟩
      · simp at hlen
      rcases data with _ | ⟨d2, data⟩
      · simp at hlen
      rcases data with _ | ⟨d3, rest⟩
      · simp at hlen
      apply parseSize_none_of_bad
      interval_cases j
      · simp only [List.getElem?_cons_zero, Option.some.injEq] at hget
        subst hget
        exact Or.inl (asciiHex_upper_none _ hb1 hb2)
      · simp only [List.getElem?_cons_succ, List.getElem?_cons_zero, Option.some.injEq] at hget
        subst hget
        exact Or.inr (Or.inl (asciiHex_upper_none _ hb1 hb2))
      · simp only [List.getElem?_cons_succ, List.getElem?_cons_zero, Option.some.injEq] at hget
        subst hget
        exact Or.inr (Or.inr (Or.inl (asciiHex_upper_none _ hb1 hb2)))
      · simp only [List.getElem?_cons_succ, List.getElem?_cons_zero, Option.some.injEq] at hget
        subst hget
        exact Or.inr (Or.inr (Or.inr (asciiHex_upper_none _ hb1 hb2)))
    exact ⟨_, by rw [parsePacketV1, if_neg hlen, hnone]⟩

theorem parsePacketV1_ok_newline (data : Bytes) (p : packetV1)
    (h : parsePacketV1 data = .ok p) : data[p.totalLen - 1]? = some 10 := by
  simp only [parsePacketV1] at h
  by_cases h6 : data.length < 6
  · simp [h6] at h
  simp only [if_neg h6] at h
  rcases hps : parseSize data with _ | plen <;> rw [hps] at h
  · simp at h
  by_cases hbig : plen > data.length
  · simp [hbig] at h
  simp only [if_neg hbig] at h
  rcases hfi : ((data.take plen).drop 4).findIdx? (fun b => b == 32) with _ | i <;> rw [hfi] at h
  · simp at h
  by_cases hi0 : i = 0
  · simp [hi0] at h
  simp only [if_neg hi0] at h
  by_cases hnl : ((data.take plen).drop 4).getD (((data.take plen).drop 4).length - 1) 0 ≠ 10
  · rw [if_pos hnl] at h
    exact absurd h (by simp)
  rw [if_neg hnl] at h
  simp only [Except.ok.injEq] at h
  subst h
  push_neg at hnl
  have hple : plen ≤ data.length := by omega
  have hdlen : ((data.take plen).drop 4).length = plen - 4 := by
    simp [List.length_drop, List.length_take]
    omega
  have hibound : i < ((data.take plen).drop 4).length :=
    (List.findIdx?_eq_some_iff_findIdx_eq.mp hfi).1
  have hplen6 : 6 ≤ plen := by
    have : 1 ≤ i := by omega
    omega
  have hsome : ((data.take plen).drop 4)[plen - 5]? = some 10 := by
    have hidx : plen - 5 < ((data.take plen).drop 4).length := by omega
    rcases hx : ((data.take plen).drop 4)[plen - 5]? with _ | x
    · rw [List.getElem?_eq_none_iff] at hx
      omega
    · rw [List.getD_eq_getElem?_getD] at hnl
      rw [show ((data.take plen).drop 4).length - 1 = plen - 5 from by omega, hx] at hnl
      simp at hnl
      rw [hnl]
  rw [List.getElem?_drop] at hsome
  rw [List.getElem?_take] at hsome
  rw [if_pos (by omega : 4 + (plen - 5) < plen)] at hsome
  show data[plen - 1]? = some 10
  rw [show plen - 1 = 4 + (plen - 5) from by omega]
  exact hsome

/-- C8: V1 packet decoding rejects any packet whose four-digit length prefix
contains an uppercase hex digit, and never returns a parsed packet unless the
packet's bytes end with the line-feed 0x0A (equivalently: a successfully
parsed packet always has 0x0A as its last byte). -/
theorem macaroon_c8_v1_packet_rejections :
    ∀ (data : Bytes),
      (∀ j b, j < 4 → data[j]? = some b → 65 ≤ b → b ≤ 70 →
        ∃ e, parsePacketV1 data = .error e) ∧
      (∀ p, parsePacketV1 data = .ok p → data[p.totalLen - 1]? = some 10) :=
  fun data =>
    ⟨fun j b hj hget hb1 hb2 => parsePacketV1_rejects_upper data j b hj hget hb1 hb2,
     fun p h => parsePacketV1_ok_newline data p h⟩

/-- C8 witness: a packet with an uppercase hex digit in its size is rejected,
and a well-formed packet parses with its final byte the line feed. -/
theorem macaroon_c8_witness :
    (∃ e, parsePacketV1 [48, 48, 65, 97, 99, 32, 10] = .error e) ∧
    parsePacketV1 [48, 48, 48, 97, 99, 105, 100, 32, 120, 10]
      = .ok { fieldName := [99, 105, 100], data := [120], totalLen := 10 } ∧
    ([48, 48, 48, 97, 99, 105, 100, 32, 120, 10] : Bytes)[9]? = some 10 :=
  ⟨(macaroon_c8_v1_packet_rejections _).1 2 65 (by decide) (by decide) (by decide) (by decide),
   by decide,
   (macaroon_c8_v1_packet_rejections _).2
     { fieldName := [99, 105, 100], data := [120], totalLen := 10 } (by decide)⟩

/-! ### Claim C5 -/

theorem asciiHex_hexDigit (d : Nat) (h : d < 16) : asciiHex (hexDigits.getD d 0) = some d := by
  interval_cases d <;> decide

theorem parseSize_hex4 (plen : Nat) (tail : Bytes) (h : plen ≤ 65535) :
    parseSize (hex4 plen ++ tail) = some plen := by
  have h12 : plen >>> 12 < 16 := by
    rw [Nat.shiftRight_eq_div_pow]
    omega
  have h8 : (plen >>> 8) % 16 < 16 := Nat.mod_lt _ (by omega)
  have h4 : (plen >>> 4) % 16 < 16 := Nat.mod_lt _ (by omega)
  have h0 : plen % 16 < 16 := Nat.mod_lt _ (by omega)
  show parseSize (hexDigits.getD (plen >>> 12) 0 :: hexDigits.getD ((plen >>> 8) % 16) 0 ::
    hexDigits.getD ((plen >>> 4) % 16) 0 :: hexDigits.getD (plen % 16) 0 :: tail) = some plen
  rw [parseSize, asciiHex_hexDigit _ h12, asciiHex_hexDigit _ h8, asciiHex_hexDigit _ h4,
    asciiHex_hexDigit _ h0]
  simp only [Nat.shiftRight_eq_div_pow]
  norm_num
  omega

theorem hex4_length (plen : Nat) : (hex4 plen).length = 4 := by
  simp [hex4]

theorem pktV1_length (field data : Bytes) :
    (pktV1 field data).length = packetSizeV1 field data := by
  simp [pktV1, hex4, packetSizeV1]
  omega

theorem appendPacketV1_fits (buf field data : Bytes)
    (h : packetSizeV1 field data ≤ maxPacketV1Len) :
    appendPacketV1 buf field data = some (buf ++ pktV1 field data) := by
  rw [appendPacketV1, if_neg (by omega)]
  simp [appendSize, pktV1, hex4]

theorem appendPacketV1_elim (buf field data out : Bytes)
    (h : appendPacketV1 buf field data = some out) :
    packetSizeV1 field data ≤ maxPacketV1Len ∧ out = buf ++ pktV1 field data := by
  rw [appendPacketV1] at h
  by_cases hfit : packetSizeV1 field data > maxPacketV1Len
  · rw [if_pos hfit] at h; cases h
  · rw [if_neg hfit] at h
    simp only [Option.some.injEq] at h
    refine ⟨by omega, ?_⟩
    rw [← h]
    simp [appendSize, pktV1, hex4]

theorem parsePacketV1_eq_body (data : Bytes) (plen : Nat) (h6 : ¬ data.length < 6)
    (hps : parseSize data = some plen) :
    parsePacketV1 data =
      (if plen > data.length then .error "packet size too big"
       else
         let d := (data.take plen).drop 4
         match d.findIdx? (fun b => b == 32) with
         | none => .error "cannot parse field name"
         | some i =>
           if i = 0 then .error "cannot parse field name"
           else if d.getD (d.length - 1) 0 ≠ 10 then .error "no terminating newline found"
           else .ok { fieldName := d.take i, data := (d.drop (i + 1)).take (d.length - 1 - (i + 1)),
                      totalLen := plen }) := by
  rw [parsePacketV1, if_neg h6, hps]

theorem parsePacketV1_pkt (field payload rest : Bytes) (hf1 : field ≠ [])
    (hf2 : ¬ 32 ∈ field) (hfit : packetSizeV1 field payload ≤ maxPacketV1Len) :
    parsePacketV1 (pktV1 field payload ++ rest)
      = .ok { fieldName := field, data := payload, totalLen := packetSizeV1 field payload } := by
  have hflen : 1 ≤ field.length := by
    cases field
    · exact absurd rfl hf1
    · simp
  have hplen : packetSizeV1 field payload = 4 + field.length + 1 + payload.length + 1 := rfl
  have hlen : (pktV1 field payload ++ rest).length
      = packetSizeV1 field payload + rest.length := by
    simp [pktV1_length]
  have hps : parseSize (pktV1 field payload ++ rest) = some (packetSizeV1 field payload) := by
    rw [pktV1, maxPacketV1Len] at *
    rw [List.append_assoc, List.append_assoc, List.append_assoc, List.append_assoc]
    exact parseSize_hex4 _ _ (by omega)
  rw [parsePacketV1_eq_body _ _ (by rw [hlen]; omega) hps]
  rw [if_neg (by omega)]
  have hbody : ((pktV1 field payload ++ rest).take (packetSizeV1 field payload)).drop 4
      = field ++ [32] ++ payload ++ [10] := by
    rw [List.take_left' (by rw [pktV1_length])]
    rw [pktV1, show hex4 (packetSizeV1 field payload) ++ field ++ [32] ++ payload ++ [10]
        = hex4 (packetSizeV1 field payload) ++ (field ++ [32] ++ payload ++ [10]) from by
      simp only [List.append_assoc]]
    exact List.drop_left' (hex4_length _)
  have hfi : (field ++ [32] ++ payload ++ [10]).findIdx? (fun b => b == 32)
      = some field.length := by
    rw [show field ++ [32] ++ payload ++ [10] = field ++ ([32] ++ (payload ++ [10])) from by
      simp only [List.append_assoc]]
    rw [List.findIdx?_append]
    rw [List.findIdx?_eq_none_iff.mpr (by
      intro x hx
      show (x == 32) = false
      rw [beq_eq_false_iff_ne]
      intro hx32
      exact hf2 (hx32 ▸ hx))]
    simp [List.findIdx?_cons]
  have hblen : (field ++ [32] ++ payload ++ [10]).length
      = field.length + 1 + payload.length + 1 := by
    simp only [List.length_append, List.length_cons, List.length_nil]
  have hlast : (field ++ [32] ++ payload ++ [10]).getD
      ((field ++ [32] ++ payload ++ [10]).length - 1) 0 = 10 := by
    rw [List.getD_eq_getElem?_getD, hblen]
    rw [show field ++ [32] ++ payload ++ [10] = (field ++ [32] ++ payload) ++ [10] from by
      simp only [List.append_assoc]]
    rw [show field.length + 1 + payload.length + 1 - 1 = (field ++ [32] ++ payload).length from by
      simp only [List.length_append, List.length_cons, List.length_nil]
      omega]
    rw [List.getElem?_concat_length]
    rfl
  have htake : (field ++ [32] ++ payload ++ [10]).take field.length = field := by
    rw [show field ++ [32] ++ payload ++ [10] = field ++ ([32] ++ (payload ++ [10])) from by
      simp only [List.append_assoc]]
    exact List.take_left' rfl
  have hdropTake : ((field ++ [32] ++ payload ++ [10]).drop (field.length + 1)).take
      ((field ++ [32] ++ payload ++ [10]).length - 1 - (field.length + 1)) = payload := by
    rw [show field ++ [32] ++ payload ++ [10] = (field ++ [32]) ++ (payload ++ [10]) from by
      simp only [List.append_assoc]]
    rw [List.drop_left' (by simp)]
    have h2 : ∀ k, k = payload.length → (payload ++ [10]).take k = payload :=
      fun k hk => by rw [hk]; exact List.take_left' rfl
    apply h2
    simp only [List.length_append, List.length_cons, List.length_nil]
    omega
  simp only [hbody, hfi]
  rw [if_neg (by omega)]
  rw [if_neg (by rw [hlast]; simp)]
  rw [htake, hdropTake]

theorem encCaveats_nil : encCaveats [] = [] := rfl

theorem encCaveats_cons (c : V1.Caveat) (rest : List V1.Caveat) :
    encCaveats (c :: rest) = encCaveat c ++ encCaveats rest := by
  simp [encCaveats]

theorem appendCaveatsBinary_elim :
    ∀ (cavs : List V1.Caveat) (data out : Bytes),
      appendCaveatsBinary data cavs = .ok out →
      (∀ c ∈ cavs, cavFits c = true) ∧ out = data ++ encCaveats cavs := by
  intro cavs
  induction cavs with
  | nil =>
    intro data out h
    simp only [appendCaveatsBinary, Except.ok.injEq] at h
    subst h
    exact ⟨by simp, by simp [encCaveats_nil]⟩
  | cons c rest ih =>
    intro data out h
    rcases happ1 : appendPacketV1 data fieldNameCaveatId c.Id with _ | d1
    · simp only [appendCaveatsBinary, happ1] at h
      exact Except.noConfusion h
    obtain ⟨hfit1, hd1⟩ := appendPacketV1_elim _ _ _ _ happ1
    rcases hv : c.VerificationId with _ | v
    · simp only [appendCaveatsBinary, happ1, hv] at h
      obtain ⟨hfits, hout⟩ := ih d1 out h
      refine ⟨?_, ?_⟩
      · intro x hx
        rcases List.mem_cons.mp hx with hx | hx
        · subst hx
          simp [cavFits, hv, hfit1]
        · exact hfits x hx
      · rw [hout, hd1, encCaveats_cons, encCaveat, hv]
        simp [List.append_assoc]
    · rcases happ2 : appendPacketV1 d1 fieldNameVerificationId v with _ | d2
      · simp only [appendCaveatsBinary, happ1, hv, happ2] at h
        exact Except.noConfusion h
      obtain ⟨hfit2, hd2⟩ := appendPacketV1_elim _ _ _ _ happ2
      rcases happ3 : appendPacketV1 d2 fieldNameCaveatLocation c.Location with _ | d3
      · simp only [appendCaveatsBinary, happ1, hv, happ2, happ3] at h
        exact Except.noConfusion h
      obtain ⟨hfit3, hd3⟩ := appendPacketV1_elim _ _ _ _ happ3
      simp only [appendCaveatsBinary, happ1, hv, happ2, happ3] at h
      obtain ⟨hfits, hout⟩ := ih d3 out h
      refine ⟨?_, ?_⟩
      · intro x hx
        rcases List.mem_cons.mp hx with hx | hx
        · subst hx
          simp [cavFits, hv, hfit1, hfit2, hfit3]
        · exact hfits x hx
      · rw [hout, hd3, hd2, hd1, encCaveats_cons, encCaveat, hv]
        simp [List.append_assoc]

theorem appendBinary_elim (m : V1.Macaroon) (data out : Bytes)
    (h : appendBinary m data = .ok out) :
    packetSizeV1 fieldNameLocation m.location ≤ maxPacketV1Len ∧
    packetSizeV1 fieldNameIdentifier m.id ≤ maxPacketV1Len ∧
    (∀ c ∈ m.caveats, cavFits c = true) ∧
    packetSizeV1 fieldNameSignature m.sig ≤ maxPacketV1Len ∧
    out = data ++ pktV1 fieldNameLocation m.location ++ pktV1 fieldNameIdentifier m.id ++
      encCaveats m.caveats ++ pktV1 fieldNameSignature m.sig := by
  rcases happ1 : appendPacketV1 data fieldNameLocation m.location with _ | d1
  · simp only [appendBinary, happ1] at h
    exact Except.noConfusion h
  obtain ⟨hfit1, hd1⟩ := appendPacketV1_elim _ _ _ _ happ1
  rcases happ2 : appendPacketV1 d1 fieldNameIdentifier m.id with _ | d2
  · simp only [appendBinary, happ1, happ2] at h
    exact Except.noConfusion h
  obtain ⟨hfit2, hd2⟩ := appendPacketV1_elim _ _ _ _ happ2
  rcases hcavs : appendCaveatsBinary d2 m.caveats with e | d3
  · simp only [appendBinary, happ1, happ2, hcavs] at h
    exact Except.noConfusion h
  obtain ⟨hfits, hd3⟩ := appendCaveatsBinary_elim _ _ _ hcavs
  rcases happ4 : appendPacketV1 d3 fieldNameSignature m.sig with _ | d4
  · simp only [appendBinary, happ1, happ2, hcavs, happ4] at h
    exact Except.noConfusion h
  obtain ⟨hfit4, hd4⟩ := appendPacketV1_elim _ _ _ _ happ4
  simp only [appendBinary, happ1, happ2, hcavs, happ4, Except.ok.injEq] at h
  subst h
  exact ⟨hfit1, hfit2, hfits, hfit4, by rw [hd4, hd3, hd2, hd1]⟩

theorem readPacketsV1_packet (fuel : Nat) (loc mid : Bytes) (acc : List V1.Caveat)
    (pend : partialCaveat) (F P REST : Bytes) (hf1 : F ≠ []) (hf2 : ¬ 32 ∈ F)
    (hfit : packetSizeV1 F P ≤ maxPacketV1Len) :
    readPacketsV1 (fuel + 1) loc mid acc pend (pktV1 F P ++ REST) =
      (if F = fieldNameSignature then
        (if P.length ≠ hashLen then .error "signature has unexpected length"
         else .ok ({ location := loc, id := mid, caveats := flushCaveat acc pend, sig := P },
           REST))
      else if F = fieldNameCaveatId then
        (match pend.Id with
         | some i =>
           readPacketsV1 fuel loc mid
             (acc ++ [V1.Caveat.mk i pend.VerificationId pend.Location])
             { Id := some P, VerificationId := none, Location := [] } REST
         | none => readPacketsV1 fuel loc mid acc { pend with Id := some P } REST)
      else if F = fieldNameVerificationId then
        (if pend.VerificationId ≠ none then .error "repeated field vid in caveat"
         else readPacketsV1 fuel loc mid acc { pend with VerificationId := some P } REST)
      else if F = fieldNameCaveatLocation then
        (if pend.Location ≠ [] then .error "repeated field location in caveat"
         else readPacketsV1 fuel loc mid acc { pend with Location := P } REST)
      else .error "unexpected field") := by
  have hparse := parsePacketV1_pkt F P REST hf1 hf2 hfit
  have hdrop : (pktV1 F P ++ REST).drop (packetSizeV1 F P) = REST :=
    List.drop_left' (pktV1_length _ _)
  simp only [readPacketsV1, hparse, hdrop]

theorem cavFits_elim (c : V1.Caveat) (h : cavFits c = true) :
    packetSizeV1 fieldNameCaveatId c.Id ≤ maxPacketV1Len ∧
    (∀ v, c.VerificationId = some v →
      packetSizeV1 fieldNameVerificationId v ≤ maxPacketV1Len ∧
      packetSizeV1 fieldNameCaveatLocation c.Location ≤ maxPacketV1Len) := by
  rw [cavFits, Bool.and_eq_true, decide_eq_true_iff] at h
  refine ⟨h.1, ?_⟩
  intro v hv
  have h2 := h.2
  rw [hv, Bool.and_eq_true, decide_eq_true_iff, decide_eq_true_iff] at h2
  exact h2

theorem readPacketsV1_spec (loc mid sig : Bytes) (hsig : sig.length = 32) :
    ∀ (cavs : List V1.Caveat) (fuel : Nat) (acc : List V1.Caveat) (pend : partialCaveat),
      3 * cavs.length + 1 ≤ fuel →
      (pend.Id = none → pend.VerificationId = none ∧ pend.Location = []) →
      (∀ c ∈ cavs, cavFits c = true) →
      (∀ c ∈ cavs, c.VerificationId = none → c.Location = []) →
      readPacketsV1 fuel loc mid acc pend (encCaveats cavs ++ pktV1 fieldNameSignature sig)
        = .ok (V1.Macaroon.mk loc mid (flushCaveat acc pend ++ cavs) sig, []) := by
  have hfitSig : packetSizeV1 fieldNameSignature sig ≤ maxPacketV1Len := by
    simp [packetSizeV1, fieldNameSignature, maxPacketV1Len, hsig]
  intro cavs
  induction cavs with
  | nil =>
    intro fuel acc pend hfuel hpend _ _
    obtain ⟨f, rfl⟩ : ∃ f, fuel = f + 1 := ⟨fuel - 1, by omega⟩
    rw [encCaveats_nil, List.nil_append]
    rw [show pktV1 fieldNameSignature sig = pktV1 fieldNameSignature sig ++ [] from
      (List.append_nil _).symm]
    rw [readPacketsV1_packet f loc mid acc pend _ _ _ (by decide) (by decide) hfitSig]
    rw [if_pos rfl]
    rw [if_neg (by rw [hsig]; simp [hashLen])]
    simp
  | cons c rest ih =>
    intro fuel acc pend hfuel hpend hfits hlocs
    simp only [List.length_cons] at hfuel
    obtain ⟨f, rfl⟩ : ∃ f, fuel = f + 1 := ⟨fuel - 1, by omega⟩
    obtain ⟨pid, pvid, ploc⟩ := pend
    have hcfits := cavFits_elim c (hfits c (List.mem_cons_self _ _))
    have hfitsRest : ∀ x ∈ rest, cavFits x = true := fun x hx => hfits x (List.mem_cons_of_mem _ hx)
    have hlocsRest : ∀ x ∈ rest, x.VerificationId = none → x.Location = [] :=
      fun x hx => hlocs x (List.mem_cons_of_mem _ hx)
    rw [encCaveats_cons, encCaveat]
    -- the continuation after the cid packet has been consumed
    have hcont : ∀ g, 3 * rest.length + 3 ≤ g →
        readPacketsV1 g loc mid (flushCaveat acc ⟨pid, pvid, ploc⟩)
          { Id := some c.Id, VerificationId := none, Location := [] }
          ((match c.VerificationId with
            | none => ([] : Bytes)
            | some v => pktV1 fieldNameVerificationId v ++
                pktV1 fieldNameCaveatLocation c.Location) ++
            (encCaveats rest ++ pktV1 fieldNameSignature sig))
          = .ok (V1.Macaroon.mk loc mid (flushCaveat acc ⟨pid, pvid, ploc⟩ ++ (c :: rest)) sig,
            []) := by
      intro g hg
      rcases hv : c.VerificationId with _ | v
      · -- first-party caveat: no vid/cl packets
        have hcl : c.Location = [] := hlocs c (List.mem_cons_self _ _) hv
        rw [List.nil_append]
        rw [ih g (flushCaveat acc ⟨pid, pvid, ploc⟩)
          { Id := some c.Id, VerificationId := none, Location := [] } (by omega)
          (by intro hh; exact absurd hh (by simp)) hfitsRest hlocsRest]
        have hc : ({ Id := c.Id, VerificationId := none, Location := [] } : V1.Caveat) = c := by
          cases c
          simp_all
        simp [flushCaveat, hc, List.append_assoc]
      · -- third-party caveat: vid then cl packets
        obtain ⟨g2, rfl⟩ : ∃ g2, g = g2 + 1 := ⟨g - 1, by omega⟩
        obtain ⟨hfitv, hfitl⟩ := hcfits.2 v hv
        simp only [List.append_assoc]
        rw [readPacketsV1_packet g2 loc mid _ _ _ _ _ (by decide) (by decide) hfitv]
        rw [if_neg (by decide), if_neg (by decide), if_pos rfl]
        rw [if_neg (by simp)]
        obtain ⟨g3, rfl⟩ : ∃ g3, g2 = g3 + 1 := ⟨g2 - 1, by omega⟩
        rw [readPacketsV1_packet g3 loc mid _ _ _ _ _ (by decide) (by decide) hfitl]
        rw [if_neg (by decide), if_neg (by decide), if_neg (by decide), if_pos rfl]
        rw [if_neg (by simp)]
        rw [ih g3 (flushCaveat acc ⟨pid, pvid, ploc⟩)
          { Id := some c.Id, VerificationId := some v, Location := c.Location } (by omega)
          (by intro hh; exact absurd hh (by simp)) hfitsRest hlocsRest]
        have hc : ({ Id := c.Id, VerificationId := some v, Location := c.Location } : V1.Caveat)
            = c := by
          cases c
          simp_all
        simp [flushCaveat, hc, List.append_assoc]
    simp only [List.append_assoc]
    rw [readPacketsV1_packet f loc mid acc ⟨pid, pvid, ploc⟩ _ _ _ (by decide) (by decide)
      hcfits.1]
    rw [if_neg (by decide), if_pos rfl]
    rcases hpid : pid with _ | i
    · subst hpid
      obtain ⟨hpv, hpl⟩ := hpend (by simp)
      simp only at hpv hpl
      subst hpv
      subst hpl
      have := hcont f (by omega)
      simp only [flushCaveat] at this ⊢
      exact this
    · subst hpid
      have := hcont f (by omega)
      simp only [flushCaveat] at this ⊢
      exact this

theorem encCaveats_length_ge : ∀ cavs : List V1.Caveat, 9 * cavs.length ≤ (encCaveats cavs).length := by
  intro cavs
  induction cavs with
  | nil => simp [encCaveats_nil]
  | cons c rest ih =>
    rw [encCaveats_cons]
    have h1 : 9 ≤ (encCaveat c).length := by
      rw [encCaveat]
      have := pktV1_length fieldNameCaveatId c.Id
      simp only [List.length_append, this, packetSizeV1]
      simp [fieldNameCaveatId]
      omega
    simp only [List.length_append, List.length_cons]
    omega

theorem unmarshalBinary_appendBinary (m : V1.Macaroon) (bs : Bytes)
    (h : appendBinary m [] = .ok bs) (hsig : m.sig.length = 32)
    (hloc1p : ∀ c ∈ m.caveats, c.VerificationId = none → c.Location = []) :
    unmarshalBinaryNoCopy bs = .ok (m, []) := by
  obtain ⟨hfitL, hfitI, hfits, hfitS, hbs⟩ := appendBinary_elim m [] bs h
  rw [List.nil_append] at hbs
  subst hbs
  simp only [List.append_assoc]
  have hp1 := parsePacketV1_pkt fieldNameLocation m.location
    (pktV1 fieldNameIdentifier m.id ++ (encCaveats m.caveats ++ pktV1 fieldNameSignature m.sig))
    (by decide) (by decide) hfitL
  have hexp1 : expectPacketV1
      (pktV1 fieldNameLocation m.location ++ (pktV1 fieldNameIdentifier m.id ++
        (encCaveats m.caveats ++ pktV1 fieldNameSignature m.sig))) fieldNameLocation
      = .ok (packetV1.mk fieldNameLocation m.location
          (packetSizeV1 fieldNameLocation m.location)) := by
    simp [expectPacketV1, hp1]
  have hdrop1 : (pktV1 fieldNameLocation m.location ++ (pktV1 fieldNameIdentifier m.id ++
      (encCaveats m.caveats ++ pktV1 fieldNameSignature m.sig))).drop
        (packetSizeV1 fieldNameLocation m.location)
      = pktV1 fieldNameIdentifier m.id ++
        (encCaveats m.caveats ++ pktV1 fieldNameSignature m.sig) :=
    List.drop_left' (pktV1_length _ _)
  have hp2 := parsePacketV1_pkt fieldNameIdentifier m.id
    (encCaveats m.caveats ++ pktV1 fieldNameSignature m.sig) (by decide) (by decide) hfitI
  have hexp2 : expectPacketV1 (pktV1 fieldNameIdentifier m.id ++
      (encCaveats m.caveats ++ pktV1 fieldNameSignature m.sig)) fieldNameIdentifier
      = .ok (packetV1.mk fieldNameIdentifier m.id
          (packetSizeV1 fieldNameIdentifier m.id)) := by
    simp [expectPacketV1, hp2]
  have hdrop2 : (pktV1 fieldNameIdentifier m.id ++
      (encCaveats m.caveats ++ pktV1 fieldNameSignature m.sig)).drop
        (packetSizeV1 fieldNameIdentifier m.id)
      = encCaveats m.caveats ++ pktV1 fieldNameSignature m.sig :=
    List.drop_left' (pktV1_length _ _)
  simp only [unmarshalBinaryNoCopy, hexp1, hdrop1, hexp2, hdrop2]
  have hfuel : 3 * m.caveats.length + 1
      ≤ (encCaveats m.caveats ++ pktV1 fieldNameSignature m.sig).length + 1 := by
    have := encCaveats_length_ge m.caveats
    simp only [List.length_append]
    omega
  rw [readPacketsV1_spec m.location m.id m.sig hsig m.caveats _ []
    { Id := none, VerificationId := none, Location := [] } hfuel (fun _ => ⟨rfl, rfl⟩)
    hfits hloc1p]
  simp [flushCaveat]

/-- C5 (amended): for every macaroon with a 32-byte signature whose
first-party caveats all have an empty location, a successful V1 binary
encoding decodes back to a macaroon equal in every field, consuming the whole
input, and (being equal) re-encodes to the identical byte string. -/
theorem macaroon_c5_v1_roundtrip :
    ∀ (m : V1.Macaroon) (bs : Bytes),
      appendBinary m [] = .ok bs →
      m.sig.length = 32 →
      (∀ c ∈ m.caveats, c.VerificationId = none → c.Location = []) →
      unmarshalBinaryNoCopy bs = .ok (m, []) ∧ appendBinary m [] = .ok bs :=
  fun m bs h hs hl => ⟨unmarshalBinary_appendBinary m bs h hs hl, h⟩

/-- C5 witness: a concrete macaroon with one third-party and one first-party
caveat round-trips through the V1 binary form. -/
theorem macaroon_c5_witness :
    appendBinary v1MacA [] = .ok v1MacABytes ∧
    v1MacA.sig.length = 32 ∧
    (∀ c ∈ v1MacA.caveats, c.VerificationId = none → c.Location = []) ∧
    unmarshalBinaryNoCopy v1MacABytes = .ok (v1MacA, []) :=
  ⟨by decide, by decide, by decide,
   (macaroon_c5_v1_roundtrip v1MacA v1MacABytes (by decide) (by decide) (by decide)).1⟩

/-- C5 counterexample: a macaroon whose only caveat is first-party but has a
non-empty location serializes successfully, yet decoding the encoding loses
the location, so the decoded value differs from the original. -/
theorem macaroon_c5_counterexample :
    appendBinary v1MacBadLoc [] = .ok v1BadLocBytes ∧
    unmarshalBinaryNoCopy v1BadLocBytes
      = .ok (V1.Macaroon.mk [108] [105, 100] [V1.Caveat.mk [99, 49] none []]
          (List.replicate 32 9), []) ∧
    V1.Macaroon.mk [108] [105, 100] [V1.Caveat.mk [99, 49] none []] (List.replicate 32 9)
      ≠ v1MacBadLoc :=
  ⟨by decide, by decide, by decide⟩


theorem stdIdx_alStd : ∀ s, s < 64 → stdIdx (alStd s) = some s := by decide

theorem urlIdx_alUrl : ∀ s, s < 64 → urlIdx (alUrl s) = some s := by decide

theorem alStd_ne61 : ∀ s, s < 64 → alStd s ≠ 61 := by decide

theorem alUrl_ne61 : ∀ s, s < 64 → alUrl s ≠ 61 := by decide

theorem stdIdx_alUrl_or : ∀ s, s < 64 →
    (s < 62 ∧ stdIdx (alUrl s) = some s) ∨ (62 ≤ s ∧ stdIdx (alUrl s) = none) := by decide

theorem b64DecodeStd_encode : ∀ (n : Nat) (v : Bytes), v.length ≤ n → (∀ b ∈ v, b < 256) →
    b64DecodeStd (base64StdEncode v) = some v := by
  intro n
  induction n with
  | zero =>
    intro v hlen _
    rcases v with _ | ⟨a, t⟩
    · rfl
    · simp at hlen
  | succ n ih =>
    intro v hlen hb
    rcases v with _ | ⟨b1, _ | ⟨b2, _ | ⟨b3, rest⟩⟩⟩
    · rfl
    · have hb1 : b1 < 256 := hb b1 (by simp)
      have hs1 : b1 / 4 < 64 := by omega
      have hs2 : b1 % 4 * 16 < 64 := by omega
      show b64DecodeStd (alStd (b1 / 4) :: alStd (b1 % 4 * 16) :: 61 :: 61 :: []) = some [b1]
      simp [b64DecodeStd, stdIdx_alStd _ hs1, stdIdx_alStd _ hs2]
      omega
    · have hb1 : b1 < 256 := hb b1 (by simp)
      have hb2 : b2 < 256 := hb b2 (by simp)
      have hs1 : b1 / 4 < 64 := by omega
      have hs2 : b1 % 4 * 16 + b2 / 16 < 64 := by omega
      have hs3 : b2 % 16 * 4 < 64 := by omega
      show b64DecodeStd (alStd (b1 / 4) :: alStd (b1 % 4 * 16 + b2 / 16) ::
        alStd (b2 % 16 * 4) :: 61 :: []) = some [b1, b2]
      simp [b64DecodeStd, stdIdx_alStd _ hs1, stdIdx_alStd _ hs2, stdIdx_alStd _ hs3,
        alStd_ne61 _ hs3,
        show b1 / 4 * 4 + (b1 % 4 * 16 + b2 / 16) / 16 = b1 from by omega]
      omega
    · have hb1 : b1 < 256 := hb b1 (by simp)
      have hb2 : b2 < 256 := hb b2 (by simp)
      have hb3 : b3 < 256 := hb b3 (by simp)
      have hs1 : b1 / 4 < 64 := by omega
      have hs2 : b1 % 4 * 16 + b2 / 16 < 64 := by omega
      have hs3 : b2 % 16 * 4 + b3 / 64 < 64 := by omega
      have hs4 : b3 % 64 < 64 := by omega
      have hrest := ih rest (by simp at hlen; omega) (fun b hbm => hb b (by simp [hbm]))
      show b64DecodeStd (alStd (b1 / 4) :: alStd (b1 % 4 * 16 + b2 / 16) ::
        alStd (b2 % 16 * 4 + b3 / 64) :: alStd (b3 % 64) :: base64StdEncode rest)
        = some (b1 :: b2 :: b3 :: rest)
      simp [b64DecodeStd, stdIdx_alStd _ hs1, stdIdx_alStd _ hs2, stdIdx_alStd _ hs3,
        stdIdx_alStd _ hs4, alStd_ne61 _ hs3, alStd_ne61 _ hs4, hrest,
        show b1 / 4 * 4 + (b1 % 4 * 16 + b2 / 16) / 16 = b1 from by omega,
        show (b1 % 4 * 16 + b2 / 16) % 16 * 16 + (b2 % 16 * 4 + b3 / 64) / 4 = b2 from by omega,
        show (b2 % 16 * 4 + b3 / 64) % 4 * 64 + b3 % 64 = b3 from by omega]

theorem b64DecodeRawURL_encode : ∀ (n : Nat) (v : Bytes), v.length ≤ n → (∀ b ∈ v, b < 256) →
    b64DecodeRawURL (base64RawURLEncode v) = some v := by
  intro n
  induction n with
  | zero =>
    intro v hlen _
    rcases v with _ | ⟨a, t⟩
    · rfl
    · simp at hlen
  | succ n ih =>
    intro v hlen hb
    rcases v with _ | ⟨b1, _ | ⟨b2, _ | ⟨b3, rest⟩⟩⟩
    · rfl
    · have hb1 : b1 < 256 := hb b1 (by simp)
      have hs1 : b1 / 4 < 64 := by omega
      have hs2 : b1 % 4 * 16 < 64 := by omega
      show b64DecodeRawURL (alUrl (b1 / 4) :: alUrl (b1 % 4 * 16) :: []) = some [b1]
      simp [b64DecodeRawURL, urlIdx_alUrl _ hs1, urlIdx_alUrl _ hs2]
      omega
    · have hb1 : b1 < 256 := hb b1 (by simp)
      have hb2 : b2 < 256 := hb b2 (by simp)
      have hs1 : b1 / 4 < 64 := by omega
      have hs2 : b1 % 4 * 16 + b2 / 16 < 64 := by omega
      have hs3 : b2 % 16 * 4 < 64 := by omega
      show b64DecodeRawURL (alUrl (b1 / 4) :: alUrl (b1 % 4 * 16 + b2 / 16) ::
        alUrl (b2 % 16 * 4) :: []) = some [b1, b2]
      simp [b64DecodeRawURL, urlIdx_alUrl _ hs1, urlIdx_alUrl _ hs2, urlIdx_alUrl _ hs3,
        show b1 / 4 * 4 + (b1 % 4 * 16 + b2 / 16) / 16 = b1 from by omega]
      omega
    · have hb1 : b1 < 256 := hb b1 (by simp)
      have hb2 : b2 < 256 := hb b2 (by simp)
      have hb3 : b3 < 256 := hb b3 (by simp)
      have hs1 : b1 / 4 < 64 := by omega
      have hs2 : b1 % 4 * 16 + b2 / 16 < 64 := by omega
      have hs3 : b2 % 16 * 4 + b3 / 64 < 64 := by omega
      have hs4 : b3 % 64 < 64 := by omega
      have hrest := ih rest (by simp at hlen; omega) (fun b hbm => hb b (by simp [hbm]))
      have hshape : base64RawURLEncode (b1 :: b2 :: b3 :: rest)
          = alUrl (b1 / 4) :: alUrl (b1 % 4 * 16 + b2 / 16) ::
            alUrl (b2 % 16 * 4 + b3 / 64) :: alUrl (b3 % 64) :: base64RawURLEncode rest := rfl
      rw [hshape]
      -- the four-or-more pattern of the decoder needs the tail shape to be known
      rcases hr : base64RawURLEncode rest with _ | ⟨c1, tail⟩
      · rw [hr] at hrest
        simp [b64DecodeRawURL, urlIdx_alUrl _ hs1, urlIdx_alUrl _ hs2, urlIdx_alUrl _ hs3,
          urlIdx_alUrl _ hs4, hrest,
          show b1 / 4 * 4 + (b1 % 4 * 16 + b2 / 16) / 16 = b1 from by omega,
          show (b1 % 4 * 16 + b2 / 16) % 16 * 16 + (b2 % 16 * 4 + b3 / 64) / 4 = b2 from by
            omega,
          show (b2 % 16 * 4 + b3 / 64) % 4 * 64 + b3 % 64 = b3 from by omega]
        simpa [b64DecodeRawURL] using hrest.symm
      · rw [hr] at hrest
        simp [b64DecodeRawURL, urlIdx_alUrl _ hs1, urlIdx_alUrl _ hs2, urlIdx_alUrl _ hs3,
          urlIdx_alUrl _ hs4, hrest,
          show b1 / 4 * 4 + (b1 % 4 * 16 + b2 / 16) / 16 = b1 from by omega,
          show (b1 % 4 * 16 + b2 / 16) % 16 * 16 + (b2 % 16 * 4 + b3 / 64) / 4 = b2 from by
            omega,
          show (b2 % 16 * 4 + b3 / 64) % 4 * 64 + b3 % 64 = b3 from by omega]

theorem b64DecodeStd_rawEncode : ∀ (n : Nat) (v : Bytes), v.length ≤ n → (∀ b ∈ v, b < 256) →
    b64DecodeStd (base64RawURLEncode v) = none ∨
      b64DecodeStd (base64RawURLEncode v) = some v := by
  intro n
  induction n with
  | zero =>
    intro v hlen _
    rcases v with _ | ⟨a, t⟩
    · exact Or.inr rfl
    · simp at hlen
  | succ n ih =>
    intro v hlen hb
    rcases v with _ | ⟨b1, _ | ⟨b2, _ | ⟨b3, rest⟩⟩⟩
    · exact Or.inr rfl
    · exact Or.inl rfl
    · exact Or.inl rfl
    · have hb1 : b1 < 256 := hb b1 (by simp)
      have hb2 : b2 < 256 := hb b2 (by simp)
      have hb3 : b3 < 256 := hb b3 (by simp)
      have hs1 : b1 / 4 < 64 := by omega
      have hs2 : b1 % 4 * 16 + b2 / 16 < 64 := by omega
      have hs3 : b2 % 16 * 4 + b3 / 64 < 64 := by omega
      have hs4 : b3 % 64 < 64 := by omega
      have hshape : base64RawURLEncode (b1 :: b2 :: b3 :: rest)
          = alUrl (b1 / 4) :: alUrl (b1 % 4 * 16 + b2 / 16) ::
            alUrl (b2 % 16 * 4 + b3 / 64) :: alUrl (b3 % 64) :: base64RawURLEncode rest := rfl
      rw [hshape]
      rcases stdIdx_alUrl_or _ hs1 with ⟨_, h1⟩ | ⟨_, h1⟩
      · rcases stdIdx_alUrl_or _ hs2 with ⟨_, h2⟩ | ⟨_, h2⟩
        · rcases stdIdx_alUrl_or _ hs3 with ⟨_, h3⟩ | ⟨_, h3⟩
          · rcases stdIdx_alUrl_or _ hs4 with ⟨_, h4⟩ | ⟨_, h4⟩
            · have hrest := ih rest (by simp at hlen; omega)
                (fun b hbm => hb b (by simp [hbm]))
              rcases hrest with hr | hr
              · exact Or.inl (by simp [b64DecodeStd, h1, h2, h3, h4, alUrl_ne61 _ hs3,
                  alUrl_ne61 _ hs4, hr])
              · refine Or.inr ?_
                simp [b64DecodeStd, h1, h2, h3, h4, alUrl_ne61 _ hs3, alUrl_ne61 _ hs4, hr,
                  show b1 / 4 * 4 + (b1 % 4 * 16 + b2 / 16) / 16 = b1 from by omega,
                  show (b1 % 4 * 16 + b2 / 16) % 16 * 16 + (b2 % 16 * 4 + b3 / 64) / 4 = b2
                    from by omega,
                  show (b2 % 16 * 4 + b3 / 64) % 4 * 64 + b3 % 64 = b3 from by omega]
            · exact Or.inl (by simp [b64DecodeStd, h1, h2, h3, h4, alUrl_ne61 _ hs3,
                alUrl_ne61 _ hs4])
          · exact Or.inl (by simp [b64DecodeStd, h1, h2, h3, alUrl_ne61 _ hs3])
        · exact Or.inl (by simp [b64DecodeStd, h1, h2])
      · exact Or.inl (by simp [b64DecodeStd, h1])

theorem base64Decode_stdEncode (v : Bytes) (hb : ∀ b ∈ v, b < 256) :
    base64Decode (base64StdEncode v) = .ok v := by
  simp [base64Decode, b64DecodeStd_encode v.length v le_rfl hb]

theorem base64Decode_rawURLEncode (v : Bytes) (hb : ∀ b ∈ v, b < 256) :
    base64Decode (base64RawURLEncode v) = .ok v := by
  rcases b64DecodeStd_rawEncode v.length v le_rfl hb with h | h
  · simp [base64Decode, h, b64DecodeRawURL_encode v.length v le_rfl hb]
  · simp [base64Decode, h]

theorem caveatsToJSON_ok : ∀ (cavs : List V1.Caveat) (js : List caveatJSON),
    caveatsToJSON cavs = .ok js →
    js = cavs.map (fun c =>
      caveatJSON.mk c.Id (base64RawURLEncode (c.VerificationId.getD [])) c.Location) := by
  intro cavs
  induction cavs with
  | nil =>
    intro js h
    simp only [caveatsToJSON, Except.ok.injEq] at h
    simp [← h]
  | cons c rest ih =>
    intro js h
    rcases hr : caveatsToJSON rest with e | js2
    · by_cases hu : utf8Valid c.Id = false
      · simp [caveatsToJSON, hu, hr] at h
      · simp [caveatsToJSON, hu, hr] at h
    · by_cases hu : utf8Valid c.Id = false
      · simp [caveatsToJSON, hu, hr] at h
      · simp [caveatsToJSON, hu, hr] at h
        rw [← h, ih js2 hr]
        simp [caveatJSON.mk]

/-- C9: When a V1 macaroon is serialized to JSON, the vid field of each caveat
is emitted in RAW URL-SAFE UNPADDED base64 (not standard padded base64 as the
spec claims), while base64Decode on deserialization accepts both the standard
padded and the URL-safe unpadded encodings of any byte string. -/
theorem macaroon_c9_json_vid (m : V1.Macaroon) (j : macaroonJSON)
    (hm : MarshalJSONV1 m = .ok j) :
    j.Caveats = m.caveats.map (fun c =>
      caveatJSON.mk c.Id (base64RawURLEncode (c.VerificationId.getD [])) c.Location) ∧
    ∀ v : Bytes, (∀ b ∈ v, b < 256) →
      base64Decode (base64StdEncode v) = .ok v ∧
      base64Decode (base64RawURLEncode v) = .ok v := by
  refine ⟨?_, fun v hv => ⟨base64Decode_stdEncode v hv, base64Decode_rawURLEncode v hv⟩⟩
  by_cases hu : utf8Valid m.id = false
  · simp [MarshalJSONV1, hu] at hm
  · rcases hc : caveatsToJSON m.caveats with e | js
    · simp [MarshalJSONV1, hu, hc] at hm
    · simp [MarshalJSONV1, hu, hc] at hm
      rw [← hm]
      exact caveatsToJSON_ok m.caveats js hc

theorem macaroon_c9_witness :
    v1MacC9JSON.Caveats = v1MacC9.caveats.map (fun c =>
      caveatJSON.mk c.Id (base64RawURLEncode (c.VerificationId.getD [])) c.Location) ∧
    base64Decode (base64StdEncode [251, 239]) = .ok [251, 239] ∧
    base64Decode (base64RawURLEncode [251, 239]) = .ok [251, 239] :=
  have h := macaroon_c9_json_vid v1MacC9 v1MacC9JSON (by decide)
  ⟨h.1, (h.2 [251, 239] (by decide)).1, (h.2 [251, 239] (by decide)).2⟩

theorem macaroon_c9_counterexample :
    MarshalJSONV1 v1MacC9 = .ok v1MacC9JSON ∧
    base64StdEncode [251, 239] = [43, 43, 56, 61] ∧
    v1MacC9JSON.Caveats.map caveatJSON.VID ≠ [base64StdEncode [251, 239]] := by
  decide
